import Mathlib

/-!
# Verification of the recipe cache-and-generation pipeline

A shallow embedding of the core services of the Ingredients-to-Recipe
backend (`backend/app/services` and `backend/app/routes`), with theorems
checking the specification's claims about cache-key derivation, ingredient
normalization, response parsing, retry logic, cache lookup, match scoring,
search orchestration and batch persistence.

Python strings are modelled on their ASCII fragment (`str.lower`,
`str.strip` and the `re` character classes are embedded with their ASCII
semantics; every input the services feed them here is ASCII).
Machine-independent integers model Python ints, and `ℚ` models the exact
real-number value of the float arithmetic in the match-percentage
computation, with Python's banker's rounding embedded explicitly.
-/

namespace RecipeApp

/-! ## Python string primitives (ASCII semantics) -/

/-- `str.lower` on ASCII: map A-Z to a-z, leave the rest. -/
def pyLowerChar (c : Char) : Char :=
  if 'A' ≤ c && c ≤ 'Z' then Char.ofNat (c.toNat + 32) else c

/-- `str.lower` over a whole string. -/
def pyLower (s : String) : String := ⟨s.data.map pyLowerChar⟩

/-- The characters `str.strip` removes and `\s` matches (ASCII). -/
def isPySpace (c : Char) : Bool :=
  c == ' ' || c == '\t' || c == '\n' || c == '\r' || c == '\x0b' || c == '\x0c'

/-- `str.strip`: drop leading and trailing whitespace. -/
def pyStrip (s : String) : String :=
  ⟨((s.data.dropWhile isPySpace).reverse.dropWhile isPySpace).reverse⟩

/-- `ing.lower().strip()` as used on every ingredient before hashing. -/
def pyLowerStrip (s : String) : String := pyStrip (pyLower s)

/-! ## SHA-256 (`hashlib.sha256`)

Implemented over byte lists (`Nat` values below 256) with 32-bit words as
`Nat` reduced mod `2^32`.  The round constants and the initial hash value
are derived, as in the standard, from the fractional parts of the cube
roots and square roots of the first primes, via exact integer root
extraction — no transcribed tables. -/

/-- `2^32`. -/
def w32 : Nat := 4294967296

/-- Addition mod `2^32`. -/
def add32 (a b : Nat) : Nat := (a + b) % w32

/-- Right rotation of a 32-bit word. -/
def rotr32 (x n : Nat) : Nat := ((x >>> n) ||| (x <<< (32 - n))) % w32

/-- Bitwise complement within 32 bits. -/
def not32 (x : Nat) : Nat := x ^^^ (w32 - 1)

/-- SHA-256 `Ch`. -/
def shaCh (x y z : Nat) : Nat := (x &&& y) ^^^ (not32 x &&& z)

/-- SHA-256 `Maj`. -/
def shaMaj (x y z : Nat) : Nat := (x &&& y) ^^^ (x &&& z) ^^^ (y &&& z)

/-- SHA-256 `Σ₀`. -/
def bigSigma0 (x : Nat) : Nat := rotr32 x 2 ^^^ rotr32 x 13 ^^^ rotr32 x 22

/-- SHA-256 `Σ₁`. -/
def bigSigma1 (x : Nat) : Nat := rotr32 x 6 ^^^ rotr32 x 11 ^^^ rotr32 x 25

/-- SHA-256 `σ₀`. -/
def smallSigma0 (x : Nat) : Nat := rotr32 x 7 ^^^ rotr32 x 18 ^^^ (x >>> 3)

/-- SHA-256 `σ₁`. -/
def smallSigma1 (x : Nat) : Nat := rotr32 x 17 ^^^ rotr32 x 19 ^^^ (x >>> 10)

/-- Primality test by trial division, for generating the constant tables. -/
def isPrimeB (n : Nat) : Bool :=
  decide (2 ≤ n) && (List.range n).all (fun m => m ≤ 1 || n % m != 0)

/-- The first 64 primes, 2 through 311. -/
def first64Primes : List Nat := ((List.range 320).filter isPrimeB).take 64

/-- Binary search step for the integer cube root. -/
def icbrtGo (n : Nat) : Nat → Nat → Nat → Nat
  | lo, _, 0 => lo
  | lo, hi, fuel + 1 =>
    if lo + 1 < hi then
      let m := (lo + hi) / 2
      if m * m * m ≤ n then icbrtGo n m hi fuel else icbrtGo n lo m fuel
    else lo

/-- Integer cube root: the largest `r` with `r^3 ≤ n` (for the inputs used). -/
def icbrt (n : Nat) : Nat := icbrtGo n 0 (n + 1) 130

/-- The 64 round constants: first 32 bits of the fractional parts of the
cube roots of the first 64 primes. -/
def kConstants : List Nat := first64Primes.map fun p => icbrt (p * 2 ^ 96) % w32

/-- Initial word `i` of the hash state: first 32 bits of the fractional
part of the square root of the `i`-th prime. -/
def hInitWord (p : Nat) : Nat := Nat.sqrt (p * 2 ^ 64) % w32

/-- The eight 32-bit words of a SHA-256 hash state. -/
structure Sha256State where
  w0 : Nat
  w1 : Nat
  w2 : Nat
  w3 : Nat
  w4 : Nat
  w5 : Nat
  w6 : Nat
  w7 : Nat

/-- The SHA-256 initial hash value. -/
def initState : Sha256State :=
  { w0 := hInitWord 2, w1 := hInitWord 3, w2 := hInitWord 5, w3 := hInitWord 7
    w4 := hInitWord 11, w5 := hInitWord 13, w6 := hInitWord 17, w7 := hInitWord 19 }

/-- One step of the message-schedule extension. -/
def wStep (w : List Nat) (_ : Nat) : List Nat :=
  let l := w.length
  w ++ [add32 (add32 (smallSigma1 (w.getD (l - 2) 0)) (w.getD (l - 7) 0))
              (add32 (smallSigma0 (w.getD (l - 15) 0)) (w.getD (l - 16) 0))]

/-- Extend the 16 block words to the 64-entry message schedule. -/
def buildW (blockWords : List Nat) : List Nat := (List.range 48).foldl wStep blockWords

/-- One SHA-256 compression round, fed a `(Kᵢ, Wᵢ)` pair. -/
def shaRound (st : Sha256State) (kw : Nat × Nat) : Sha256State :=
  let t1 := add32 st.w7 (add32 (bigSigma1 st.w4)
              (add32 (shaCh st.w4 st.w5 st.w6) (add32 kw.1 kw.2)))
  let t2 := add32 (bigSigma0 st.w0) (shaMaj st.w0 st.w1 st.w2)
  { w0 := add32 t1 t2, w1 := st.w0, w2 := st.w1, w3 := st.w2
    w4 := add32 st.w3 t1, w5 := st.w4, w6 := st.w5, w7 := st.w6 }

/-- Compress one 16-word block into the running state. -/
def compress (st : Sha256State) (blockWords : List Nat) : Sha256State :=
  let f := (kConstants.zip (buildW blockWords)).foldl shaRound st
  { w0 := add32 st.w0 f.w0, w1 := add32 st.w1 f.w1, w2 := add32 st.w2 f.w2
    w3 := add32 st.w3 f.w3, w4 := add32 st.w4 f.w4, w5 := add32 st.w5 f.w5
    w6 := add32 st.w6 f.w6, w7 := add32 st.w7 f.w7 }

/-- `n` big-endian bytes of `v`. -/
def toBytesBE (n v : Nat) : List Nat :=
  (List.range n).map fun i => (v >>> (8 * (n - 1 - i))) % 256

/-- Merkle–Damgård padding: `0x80`, zeros to 56 mod 64, 64-bit length. -/
def padMessage (msg : List Nat) : List Nat :=
  let len := msg.length
  let zeros := (56 + 64 - ((len + 1) % 64)) % 64
  msg ++ [128] ++ List.replicate zeros 0 ++ toBytesBE 8 ((8 * len) % 2 ^ 64)

/-- Split a byte list into 64-byte chunks (fuel bounds the recursion so
the definition stays structural). -/
def chunks64Aux : Nat → List Nat → List (List Nat)
  | 0, _ => []
  | _, [] => []
  | fuel + 1, a :: rest => ((a :: rest).take 64) :: chunks64Aux fuel ((a :: rest).drop 64)

/-- Split a byte list into 64-byte chunks. -/
def chunks64 (l : List Nat) : List (List Nat) := chunks64Aux l.length l

/-- Big-endian bytes to 32-bit words. -/
def wordsOfBytes : List Nat → List Nat
  | b0 :: b1 :: b2 :: b3 :: rest => (((b0 * 256 + b1) * 256 + b2) * 256 + b3) :: wordsOfBytes rest
  | _ => []

/-- The SHA-256 digest state of a byte message. -/
def sha256Digest (msg : List Nat) : Sha256State :=
  (chunks64 (padMessage msg)).foldl (fun st block => compress st (wordsOfBytes block)) initState

/-- The 32 digest bytes. -/
def digestBytes (st : Sha256State) : List Nat :=
  toBytesBE 4 st.w0 ++ toBytesBE 4 st.w1 ++ toBytesBE 4 st.w2 ++ toBytesBE 4 st.w3 ++
  toBytesBE 4 st.w4 ++ toBytesBE 4 st.w5 ++ toBytesBE 4 st.w6 ++ toBytesBE 4 st.w7

/-- The sixteen lowercase hex characters: the digits then a through f. -/
def hexChars : List Char :=
  (List.range 10).map (fun n => Char.ofNat (48 + n))
    ++ (List.range 6).map (fun n => Char.ofNat (97 + n))

/-- Hex character of a value below 16. -/
def hexDigit (n : Nat) : Char := hexChars.getD n '0'

/-- Lowercase hex rendering of a byte list, two characters per byte. -/
def bytesToHex : List Nat → List Char
  | [] => []
  | b :: rest => hexDigit (b / 16) :: hexDigit (b % 16) :: bytesToHex rest

/-- `hashlib.sha256(bytes).hexdigest()`. -/
def sha256hex (msg : List Nat) : String := ⟨bytesToHex (digestBytes (sha256Digest msg))⟩

/-- UTF-8 bytes of one character. -/
def utf8Char (c : Char) : List Nat :=
  let n := c.toNat
  if n < 128 then [n]
  else if n < 2048 then [192 ||| (n >>> 6), 128 ||| (n &&& 63)]
  else if n < 65536 then
    [224 ||| (n >>> 12), 128 ||| ((n >>> 6) &&& 63), 128 ||| (n &&& 63)]
  else
    [240 ||| (n >>> 18), 128 ||| ((n >>> 12) &&& 63),
     128 ||| ((n >>> 6) &&& 63), 128 ||| (n &&& 63)]

/-- `str.encode()`: UTF-8 bytes of a string. -/
def utf8Encode (s : String) : List Nat :=
  s.data.foldr (fun c acc => utf8Char c ++ acc) []

/-! ## JSON serialization (`json.dumps(…, sort_keys=True)`)

Only the fragment the cache key uses: an object whose values are lists of
strings or lists of ints, rendered with the default separators `", "` and
`": "` and `ensure_ascii` escaping. -/

/-- Hex character of one nibble of `n`, for `\uXXXX` escapes. -/
def hexDigit4 (n : Nat) : List Char :=
  [hexDigit (n / 4096 % 16), hexDigit (n / 256 % 16), hexDigit (n / 16 % 16), hexDigit (n % 16)]

/-- `json.dumps` escaping of one character (`ensure_ascii=True`). -/
def jsonEscapeChar (c : Char) : List Char :=
  if c == '"' then ['\\', '"']
  else if c == '\\' then ['\\', '\\']
  else if c == '\n' then ['\\', 'n']
  else if c == '\t' then ['\\', 't']
  else if c == '\r' then ['\\', 'r']
  else if c.toNat == 8 then ['\\', 'b']
  else if c.toNat == 12 then ['\\', 'f']
  else if 32 ≤ c.toNat && c.toNat ≤ 126 then [c]
  else if c.toNat < 65536 then '\\' :: 'u' :: hexDigit4 c.toNat
  else
    let v := c.toNat - 65536
    ('\\' :: 'u' :: hexDigit4 (55296 + v / 1024)) ++ ('\\' :: 'u' :: hexDigit4 (56320 + v % 1024))

/-- A JSON string literal. -/
def jsonQuote (s : String) : String :=
  ⟨'"' :: s.data.foldr (fun c acc => jsonEscapeChar c ++ acc) ['"']⟩

/-- A JSON array of strings. -/
def jsonStrList (l : List String) : String :=
  "[" ++ String.intercalate ", " (l.map jsonQuote) ++ "]"

/-- A JSON array of ints. -/
def jsonIntList (l : List Int) : String :=
  "[" ++ String.intercalate ", " (l.map toString) ++ "]"

/-! ## Cache key derivation (`recipe_cache_service.generate_cache_key`) -/

/-- The `filters` dictionary: each field is `some v` when the key is
present with value `v`, `none` when absent (a key present with value
`None` behaves identically to an absent key throughout the code and is
represented the same way). -/
structure Filters where
  dietary_preferences : Option (List String) := none
  cooking_time_range : Option (List Int) := none
deriving DecidableEq

/-- Python `sorted` on strings: code-point lexicographic. -/
def sortStrings (l : List String) : List String :=
  Multiset.sort (α := String) (· ≤ ·) ↑l

/-- Truthiness of the `filters` dict (`if filters:`): nonempty. -/
def filtersTruthy (f : Filters) : Bool :=
  f.dietary_preferences.isSome || f.cooking_time_range.isSome

/-- The `cache_data` dictionary of `generate_cache_key`, as its three
optional entries (ingredients always present). -/
def cacheData (ingredients : List String) (filters : Option Filters) :
    List String × Option (List String) × Option (List Int) :=
  let sortedIngredients := sortStrings (ingredients.map pyLowerStrip)
  match filters with
  | none => (sortedIngredients, none, none)
  | some f =>
    if filtersTruthy f then
      let dp := match f.dietary_preferences with
        | some (x :: xs) => some (sortStrings (x :: xs))
        | _ => none
      let ctr := match f.cooking_time_range with
        | some (x :: xs) => some (x :: xs)
        | _ => none
      (sortedIngredients, dp, ctr)
    else (sortedIngredients, none, none)

/-- `json.dumps(cache_data, sort_keys=True)`: keys serialized in sorted
order `cooking_time_range < dietary_preferences < ingredients`. -/
def cacheString (ingredients : List String) (filters : Option Filters) : String :=
  let (ings, dp, ctr) := cacheData ingredients filters
  let entries :=
    (match ctr with
     | some l => ["\"cooking_time_range\": " ++ jsonIntList l]
     | none => []) ++
    (match dp with
     | some l => ["\"dietary_preferences\": " ++ jsonStrList l]
     | none => []) ++
    ["\"ingredients\": " ++ jsonStrList ings]
  "\x7b" ++ String.intercalate ", " entries ++ "\x7d"

/-- `generate_cache_key`: SHA-256 hex digest of the canonical cache string. -/
def generate_cache_key (ingredients : List String) (filters : Option Filters := none) :
    String :=
  sha256hex (utf8Encode (cacheString ingredients filters))

/-! ## Ingredient normalizer (`ingredient_service.normalize_ingredient_name`) -/

/-- Characters kept by `re.sub(r'[^a-z0-9\s\-]', '', …)`. -/
def keepChar (c : Char) : Bool :=
  ('a' ≤ c && c ≤ 'z') || ('0' ≤ c && c ≤ '9') || isPySpace c || c == '-'

/-- `re.sub(r'\s+', ' ', …)` scanner: the flag records whether the scan
is inside a whitespace run that has already emitted its single space. -/
def collapseWsAux : Bool → List Char → List Char
  | _, [] => []
  | inRun, c :: rest =>
    if isPySpace c then
      if inRun then collapseWsAux true rest
      else ' ' :: collapseWsAux true rest
    else c :: collapseWsAux false rest

/-- `re.sub(r'\s+', ' ', …)`: collapse whitespace runs to single spaces. -/
def collapseWs (l : List Char) : List Char := collapseWsAux false l

/-- `normalize_ingredient_name`: lowercase, strip, remove special
characters, collapse whitespace — in that order. -/
def normalize_ingredient_name (name : String) : String :=
  let normalized := pyStrip (pyLower name)
  let normalized := normalized.data.filter keepChar
  ⟨collapseWs normalized⟩

/-! ## Generation client retry loop (`GroqService.generate_completion`)

The provider call of attempt `a` is an oracle `provider a`; the loop
records the attempts made and the backoff waits slept between them. -/

/-- The body of `for attempt in range(max_retries)`, over the list of
remaining attempt indices, threading `last_error`.  Returns the outcome
(the response, or the last underlying error), the number of attempts
made, and the list of waits (in seconds) slept between attempts. -/
def runAttempts {E R : Type} (provider : Nat → Except E R) :
    List Nat → Option E → Except (Option E) R × Nat × List Nat
  | [], lastError => (.error lastError, 0, [])
  | a :: rest, _ =>
    match provider a with
    | .ok r => (.ok r, 1, [])
    | .error e =>
      match rest with
      | [] => (.error (some e), 1, [])
      | b :: rest2 =>
        let x := runAttempts provider (b :: rest2) (some e)
        (x.1, x.2.1 + 1, (2 ^ a : Nat) :: x.2.2)

/-- `generate_completion` with `max_retries`: run attempts `0`, …,
`max_retries - 1`, waiting `2^attempt` seconds after each failure that is
not the last attempt. -/
def generate_completion {E R : Type} (provider : Nat → Except E R)
    (max_retries : Nat := 3) : Except (Option E) R × Nat × List Nat :=
  runAttempts provider (List.range max_retries) none

/-! ## Cache lookup (`recipe_cache_service.get_cached_recipes`)

Timestamps are seconds as integers; `timedelta(days=d)` is `d * 86400`. -/

/-- The slice of a persisted `Recipe` row the cache store reads. -/
structure CachedRecipe where
  cache_key : Option String
  created_at : Int
deriving DecidableEq

/-- `get_cached_recipes`: all rows with this key no older than
`max_age_days`, or `None` on an empty result. -/
def get_cached_recipes (db : List CachedRecipe) (now : Int) (cacheKey : String)
    (max_age_days : Int := 7) : Option (List CachedRecipe) :=
  let expirationThreshold := now - max_age_days * 86400
  let recipes := db.filter fun r =>
    r.cache_key == some cacheKey && decide (expirationThreshold ≤ r.created_at)
  if 0 < recipes.length then some recipes else none

/-! ## Match percentage (`recipe_routes.calculate_match_percentage`)

The float arithmetic is modelled exactly in `ℚ`; `round(x, 1)` is
Python's round-half-to-even at one decimal. -/

/-- Round half to even (Python `round` on the exact value); `Rat.floor`
is the computable floor. -/
def roundHalfEven (x : ℚ) : ℤ :=
  if x - x.floor < 1 / 2 then x.floor
  else if 1 / 2 < x - x.floor then x.floor + 1
  else if Even x.floor then x.floor else x.floor + 1

/-- `round(x, 1)` on the exact value. -/
def pyRound1 (x : ℚ) : ℚ := (roundHalfEven (10 * x) : ℚ) / 10

/-- A recipe-ingredient association as the matcher reads it. -/
structure RIng where
  name : String
  is_optional : Bool
deriving DecidableEq

/-- `calculate_match_percentage`: share of the recipe's non-optional
ingredients (all ingredients when every one is optional) whose normalized
name is among the normalized user ingredients, as a percentage rounded to
one decimal; `0.0` on an ingredient-less recipe. -/
def calculate_match_percentage (recipe_ingredients : List RIng)
    (user_ingredients : List String) : ℚ :=
  if recipe_ingredients.isEmpty then 0
  else
    let normalizedUser := user_ingredients.map normalize_ingredient_name
    let requiredOnly := recipe_ingredients.filter fun ri => !ri.is_optional
    let required := if requiredOnly.isEmpty then recipe_ingredients else requiredOnly
    let matching :=
      (required.filter fun ri => normalizedUser.contains (normalize_ingredient_name ri.name)).length
    pyRound1 ((matching : ℚ) / (required.length : ℚ) * 100)

/-! ## Batch persistence (`recipe_generation_service.generate_recipes`, storage phase)

Each draft's `store_recipe_in_db` call is an oracle; failures are caught
per draft and the batch fails only when nothing persisted. -/

/-- The storage loop of `generate_recipes`: keep the drafts that persist,
raise `RecipeGenerationError` when none do. -/
def persist_batch {D R E : Type} (store : D → Except E R) (drafts : List D) :
    Except String (List R) :=
  let stored := drafts.filterMap fun d => (store d).toOption
  if stored.length = 0 then .error "Failed to store any recipes in database"
  else .ok stored

/-! ## Search orchestration (`recipe_routes.search_recipes`, post-cache phase)

The working set of recipes (cache hit or freshly generated) is filtered,
counted, paginated, enriched with its match percentage, and the page is
sorted by descending match percentage with Python's stable `list.sort`. -/

/-- The slice of a `Recipe` row the search route reads. -/
structure SRecipe where
  cooking_time_minutes : Int
  dietary_tags : List String
  recipe_ingredients : List RIng
deriving DecidableEq

/-- Stable descending insertion: place `x` before the first element whose
key does not exceed `x`'s. -/
def insertDesc {α : Type} (key : α → ℚ) (x : α) : List α → List α
  | [] => [x]
  | y :: ys => if key y ≤ key x then x :: y :: ys else y :: insertDesc key x ys

/-- Stable sort by descending key (the behavior of Python's stable
`list.sort(key=…, reverse=True)`). -/
def sortByKeyDesc {α : Type} (key : α → ℚ) : List α → List α
  | [] => []
  | x :: xs => insertDesc key x (sortByKeyDesc key xs)

/-- The cooking-time post-filter of `search_recipes` (applied only for a
truthy, two-element `cooking_time_range`). -/
def applyTimeFilter (ctr : Option (List Int)) (recipes : List SRecipe) : List SRecipe :=
  match ctr with
  | some [mn, mx] =>
    recipes.filter fun r =>
      decide (mn ≤ r.cooking_time_minutes) && decide (r.cooking_time_minutes ≤ mx)
  | _ => recipes

/-- The dietary post-filter of `search_recipes` (applied only for a
truthy `dietary_preferences`): every requested tag present,
case-insensitively. -/
def applyDietFilter (dp : Option (List String)) (recipes : List SRecipe) : List SRecipe :=
  match dp with
  | some (p :: ps) =>
    recipes.filter fun r =>
      (p :: ps).all fun pref => (r.dietary_tags.map pyLower).contains (pyLower pref)
  | _ => recipes

/-- The post-cache phase of `search_recipes`: filter, count, paginate,
enrich with the match percentage, sort the page descending.  Returns the
final page (each recipe with its match percentage) and `total`. -/
def search_recipes (recipes : List SRecipe) (filters : Filters)
    (page page_size : Nat) (user_ingredients : List String) :
    List (SRecipe × ℚ) × Nat :=
  let normalizedIngredients := user_ingredients.map normalize_ingredient_name
  let filtered := applyDietFilter filters.dietary_preferences
    (applyTimeFilter filters.cooking_time_range recipes)
  let total := filtered.length
  let paginated := (filtered.drop ((page - 1) * page_size)).take page_size
  let enriched := paginated.map fun r =>
    (r, calculate_match_percentage r.recipe_ingredients normalizedIngredients)
  (sortByKeyDesc (fun e => e.2) enriched, total)

/-! ## Response parser (`recipe_generation_service.parse_recipe_response`)

The decoded value of `json.loads` is a `Json` tree; an input
`.error e` stands for a `json.JSONDecodeError` with message `e`.
Python's `field in value` and `value[field]` are partial: on values where
they raise (`TypeError` on numbers/booleans/`None`, `TypeError`/`KeyError`
on subscripting non-dicts or missing keys) the parser's generic
`except Exception` handler turns the failure into a
`RecipeGenerationError` whose text does not follow the explicit message
formats. -/

/-- A decoded JSON value. -/
inductive Json where
  | null
  | bool (b : Bool)
  | num (n : Int)
  | str (s : String)
  | arr (elems : List Json)
  | obj (entries : List (String × Json))

/-- First value under a key of a decoded object (`json.loads` yields
unique keys). -/
def lookupKey : List (String × Json) → String → Option Json
  | [], _ => none
  | (k', v) :: rest, k => if k' == k then some v else lookupKey rest k

/-- Whether a list of characters occurs inside another. -/
def substrB (pat s : List Char) : Bool := s.tails.any fun t => pat.isPrefixOf t

/-- Python `field in value`: key containment on dicts, element containment
on lists, substring containment on strings; `none` models the `TypeError`
raised on other values. -/
def pyContains (field : String) : Json → Option Bool
  | .obj entries => some (lookupKey entries field).isSome
  | .arr elems =>
    some (elems.any fun e => match e with | .str s => s == field | _ => false)
  | .str s => some (substrB field.data s.data)
  | _ => none

/-- Python `value[field]` for a string key: lookup on dicts; `none` models
the `TypeError`/`KeyError` raised otherwise. -/
def pySubscript (v : Json) (field : String) : Option Json :=
  match v with
  | .obj entries => lookupKey entries field
  | _ => none

/-- How a parse step fails: an explicitly raised `RecipeGenerationError`
with its message, or an exception caught by the generic handler. -/
inductive ParseFailure where
  | genErr (msg : String)
  | typeErr
deriving DecidableEq

/-- The required recipe fields, in the order the parser checks them. -/
def requiredFields : List String :=
  ["name", "description", "ingredients", "instructions",
   "cooking_time_minutes", "difficulty", "serving_size"]

/-- `for field in required_fields: if field not in recipe: raise …`. -/
def checkFields (i : Nat) (recipe : Json) : List String → Except ParseFailure Unit
  | [] => .ok ()
  | f :: rest =>
    match pyContains f recipe with
    | none => .error .typeErr
    | some false =>
      .error (.genErr ("Recipe " ++ toString i ++ " " ++ ("missing required field: " ++ f)))
    | some true => checkFields i recipe rest

/-- The per-ingredient validation loop. -/
def checkIngredients (i : Nat) (j : Nat) : List Json → Except ParseFailure Unit
  | [] => .ok ()
  | ing :: rest =>
    match ing with
    | .obj entries =>
      if (lookupKey entries "name").isSome then checkIngredients i (j + 1) rest
      else .error (.genErr ("Recipe " ++ toString i ++ " "
        ++ ("ingredient " ++ toString j ++ " missing 'name'")))
    | _ => .error (.genErr ("Recipe " ++ toString i ++ " "
        ++ ("ingredient " ++ toString j ++ " is not an object")))

/-- The per-recipe validation body of the parser's loop. -/
def validateRecipe (i : Nat) (recipe : Json) : Except ParseFailure Unit :=
  match checkFields i recipe requiredFields with
  | .error e => .error e
  | .ok () =>
    match pySubscript recipe "ingredients" with
    | none => .error .typeErr
    | some ings =>
      match ings with
      | .arr elems =>
        match checkIngredients i 0 elems with
        | .error e => .error e
        | .ok () =>
          match pySubscript recipe "instructions" with
          | none => .error .typeErr
          | some instr =>
            match instr with
            | .arr _ => .ok ()
            | _ => .error (.genErr ("Recipe " ++ toString i ++ " "
                ++ "instructions is not a list"))
      | _ => .error (.genErr ("Recipe " ++ toString i ++ " " ++ "ingredients is not a list"))

/-- `for i, recipe in enumerate(recipes)`: validate in order, aborting at
the first violation. -/
def validateAll (i : Nat) : List Json → Except ParseFailure Unit
  | [] => .ok ()
  | r :: rest =>
    match validateRecipe i r with
    | .error e => .error e
    | .ok () => validateAll (i + 1) rest

/-- `parse_recipe_response`: the message of an exception caught by the
generic handler is modelled as its type name, mirroring the
`"Failed to parse response: " + str(e)` format. -/
def parse_recipe_response (input : Except String Json) : Except String (List Json) :=
  match input with
  | .error e => .error ("Invalid JSON response: " ++ e)
  | .ok data =>
    match data with
    | .obj entries =>
      match lookupKey entries "recipes" with
      | none => .error "Response missing 'recipes' key"
      | some recipesVal =>
        match recipesVal with
        | .arr [] => .error "No recipes returned"
        | .arr (r :: rs) =>
          match validateAll 0 (r :: rs) with
          | .ok () => .ok (r :: rs)
          | .error (.genErr m) => .error m
          | .error .typeErr => .error "Failed to parse response: TypeError"
        | _ => .error "'recipes' is not a list"
    | _ => .error "Response is not a JSON object"

/-! ### The failure condition in the specification's words (4.7) -/

/-- Spec: an object's field, absent on every non-object. -/
def objHasKey (f : String) (v : Json) : Bool :=
  match v with
  | .obj entries => (lookupKey entries f).isSome
  | _ => false

/-- Spec: "some ingredient entry is not an object or lacks `name`". -/
def specIngredientBad (ing : Json) : Bool :=
  match ing with
  | .obj entries => !(lookupKey entries "name").isSome
  | _ => true

/-- Spec: a recipe entry violates 4.7 — it is missing a required field,
its `ingredients` is not a list or has a bad entry, or its `instructions`
is not a list. -/
def specRecipeBad (r : Json) : Bool :=
  requiredFields.any (fun f => !objHasKey f r) ||
  (match r with
   | .obj entries =>
     (match lookupKey entries "ingredients" with
      | some (.arr ings) => ings.any specIngredientBad
      | some _ => true
      | none => false) ||
     (match lookupKey entries "instructions" with
      | some (.arr _) => false
      | some _ => true
      | none => false)
   | _ => false)

/-- Spec: the parse fails — invalid JSON, a non-object or `recipes`-less
decoded value, a non-list or empty `recipes`, or some bad recipe entry. -/
def specParseBad (input : Except String Json) : Bool :=
  match input with
  | .error _ => true
  | .ok (.obj entries) =>
    match lookupKey entries "recipes" with
    | some (.arr []) => true
    | some (.arr (r :: rs)) => (r :: rs).any specRecipeBad
    | some _ => true
    | none => true
  | .ok _ => true

/-- Whether an error message names a required field (or an ingredient
entry) — the "which field failed" half of 4.7's message contract. -/
def msgMentionsField (m : String) : Bool :=
  requiredFields.any (fun f => substrB f.data m.data) || substrB "ingredient".data m.data

/-! ## Stored recipe fields (`recipe_generation_service.store_recipe_in_db`)

`store_recipe_in_db` copies `recipe_data["cooking_time_minutes"]`,
`recipe_data["difficulty"]` and `recipe_data["serving_size"]` into the
`Recipe` row verbatim; no range or enum check exists anywhere between the
parser and the database schema. -/

/-- The three constrained column values the persister reads from a draft. -/
def storedConstrainedFields (recipeData : Json) : Option (Json × Json × Json) :=
  match pySubscript recipeData "cooking_time_minutes",
        pySubscript recipeData "difficulty",
        pySubscript recipeData "serving_size" with
  | some a, some b, some c => some (a, b, c)
  | _, _, _ => none

/-- The data model's difficulty enum, as a predicate on a stored value. -/
def isAllowedDifficulty (v : Json) : Bool :=
  match v with
  | .str s => s == "easy" || s == "medium" || s == "hard"
  | _ => false

/-- The data model's `> 0` bound, as a predicate on a stored value. -/
def jsonPosInt (v : Json) : Bool :=
  match v with
  | .num n => decide (0 < n)
  | _ => false

/-! ## Helper lemmas -/

/-- Sorting is invariant under permutation of the input. -/
theorem sortStrings_perm_eq {l1 l2 : List String} (h : l1.Perm l2) :
    sortStrings l1 = sortStrings l2 := by
  unfold sortStrings
  congr 1
  exact Multiset.coe_eq_coe.mpr h

/-- The cache data derived from permuted ingredient lists coincides. -/
theorem cacheData_perm_ingredients {l1 l2 : List String} (fs : Option Filters)
    (h : l1.Perm l2) : cacheData l1 fs = cacheData l2 fs := by
  have hs : sortStrings (l1.map pyLowerStrip) = sortStrings (l2.map pyLowerStrip) :=
    sortStrings_perm_eq (h.map pyLowerStrip)
  unfold cacheData
  cases fs with
  | none => simp [hs]
  | some f => by_cases ht : filtersTruthy f <;> simp [hs, ht]

/-- Every hex digit is one of the sixteen hex characters. -/
theorem hexDigit_mem (n : Nat) : hexDigit n ∈ hexChars := by
  unfold hexDigit
  rcases Nat.lt_or_ge n 16 with h | h
  · interval_cases n <;> decide
  · rw [List.getD_eq_default]
    · decide
    · simpa [hexChars] using h

/-- Hex rendering doubles the length. -/
theorem bytesToHex_length (bs : List Nat) : (bytesToHex bs).length = 2 * bs.length := by
  induction bs with
  | nil => rfl
  | cons b rest ih => simp [bytesToHex, ih]; omega

/-- Hex rendering emits only hex characters. -/
theorem bytesToHex_mem (bs : List Nat) : ∀ c ∈ bytesToHex bs, c ∈ hexChars := by
  induction bs with
  | nil => intro c hc; cases hc
  | cons b rest ih =>
    intro c hc
    simp only [bytesToHex, List.mem_cons] at hc
    rcases hc with h | h | h
    · exact h ▸ hexDigit_mem _
    · exact h ▸ hexDigit_mem _
    · exact ih c h

/-- A digest state serializes to exactly 32 bytes. -/
theorem digestBytes_length (st : Sha256State) : (digestBytes st).length = 32 := by
  simp [digestBytes, toBytesBE]

/-- Every SHA-256 hex digest is 64 characters long. -/
theorem sha256hex_length (msg : List Nat) : (sha256hex msg).length = 64 := by
  show (bytesToHex (digestBytes (sha256Digest msg))).length = 64
  rw [bytesToHex_length, digestBytes_length]

/-- Every character of a SHA-256 hex digest is a lowercase hex character. -/
theorem sha256hex_chars (msg : List Nat) : ∀ c ∈ (sha256hex msg).data, c ∈ hexChars :=
  bytesToHex_mem _

/-! ## C1 — cache key derivation: order insensitivity and output shape -/

/-- C1: `generate_cache_key` is insensitive to the order of the
ingredient list and to the order of the `dietary_preferences` list, and
always returns a 64-character string of lowercase hexadecimal characters
(the hex form of a 256-bit digest). -/
theorem generate_cache_key_order_insensitive_and_hex
    (ings1 ings2 : List String) (fs : Option Filters)
    (dps1 dps2 : List String) (ctr : Option (List Int))
    (hIngs : ings1.Perm ings2) (hDps : dps1.Perm dps2) :
    generate_cache_key ings1 fs = generate_cache_key ings2 fs ∧
    generate_cache_key ings1 (some ⟨some dps1, ctr⟩)
      = generate_cache_key ings1 (some ⟨some dps2, ctr⟩) ∧
    (generate_cache_key ings1 fs).length = 64 ∧
    ∀ c ∈ (generate_cache_key ings1 fs).data, c ∈ hexChars := by
  refine ⟨?_, ?_, sha256hex_length _, sha256hex_chars _⟩
  · unfold generate_cache_key cacheString
    rw [cacheData_perm_ingredients fs hIngs]
  · unfold generate_cache_key cacheString cacheData
    cases dps1 with
    | nil =>
      have h2 : dps2 = [] := hDps.symm.eq_nil
      rw [h2]
    | cons x xs =>
      cases dps2 with
      | nil => exact absurd hDps.eq_nil (by simp)
      | cons y ys =>
        have hs : sortStrings (x :: xs) = sortStrings (y :: ys) := sortStrings_perm_eq hDps
        simp [filtersTruthy, hs]

/-- Witness for C1 at concrete inputs. -/
theorem generate_cache_key_order_insensitive_and_hex_witness :
    generate_cache_key ["Basil", "tomato "] none = generate_cache_key ["tomato ", "Basil"] none ∧
    generate_cache_key ["Basil", "tomato "] (some ⟨some ["vegan", "keto"], some [5, 20]⟩)
      = generate_cache_key ["Basil", "tomato "] (some ⟨some ["keto", "vegan"], some [5, 20]⟩) ∧
    (generate_cache_key ["Basil", "tomato "] none).length = 64 ∧
    ∀ c ∈ (generate_cache_key ["Basil", "tomato "] none).data, c ∈ hexChars :=
  generate_cache_key_order_insensitive_and_hex
    ["Basil", "tomato "] ["tomato ", "Basil"] none
    ["vegan", "keto"] ["keto", "vegan"] (some [5, 20])
    (by decide) (by decide)

/-! ## C10 — falsy filters are equivalent to no filters -/

/-- C10: an absent `filters`, an empty dict, an empty
`dietary_preferences` list and an empty/absent `cooking_time_range` all
derive the same cache key. -/
theorem generate_cache_key_falsy_filters (ings : List String) :
    generate_cache_key ings none = generate_cache_key ings (some {}) ∧
    generate_cache_key ings none
      = generate_cache_key ings (some { dietary_preferences := some [] }) ∧
    generate_cache_key ings none
      = generate_cache_key ings (some { cooking_time_range := some [] }) ∧
    generate_cache_key ings none
      = generate_cache_key ings
          (some { dietary_preferences := some [], cooking_time_range := some [] }) :=
  ⟨rfl, rfl, rfl, rfl⟩

/-! ## C2 — the normalizer is not idempotent (and not trimmed)

Stripping runs before special-character removal, so removing a special
character can expose a boundary space that survives: the function's own
contract ("trimmed", idempotent) is violated at `"! a"`. -/

/-- C2: evaluating the normalizer at the failing input `"! a"`: the
result keeps a leading space, and a second application changes it —
`normalize` is neither trimmed nor idempotent there. -/
theorem normalize_ingredient_name_not_idempotent :
    normalize_ingredient_name "! a" = " a" ∧
    normalize_ingredient_name (normalize_ingredient_name "! a") = "a" ∧
    normalize_ingredient_name (normalize_ingredient_name "! a")
      ≠ normalize_ingredient_name "! a" := by
  exact ⟨rfl, rfl, by decide⟩

/-! ## C5 — cache lookup: matching, expiry, indistinguishable misses -/

/-- The specification's lookup condition: fingerprint matches and the
creation timestamp is within `max_age` of the current time. -/
def freshMatch (now : Int) (key : String) (maxAgeDays : Int) (r : CachedRecipe) : Prop :=
  r.cache_key = some key ∧ now - r.created_at ≤ maxAgeDays * 86400

instance (now : Int) (key : String) (m : Int) (r : CachedRecipe) :
    Decidable (freshMatch now key m r) := by
  unfold freshMatch; infer_instance

/-- C5: `get_cached_recipes` returns exactly the persisted recipes whose
key matches and whose creation time is within `max_age_days` (default 7)
of `now`; the result is `None` exactly when no such recipe exists —
whether because nothing matches the key or because everything matching
is too old. -/
theorem get_cached_recipes_spec (db : List CachedRecipe) (now : Int)
    (key : String) (maxAgeDays : Int) :
    (∀ l, get_cached_recipes db now key maxAgeDays = some l →
      l = db.filter (fun r => decide (freshMatch now key maxAgeDays r)) ∧ l ≠ []) ∧
    (get_cached_recipes db now key maxAgeDays = none ↔
      db.filter (fun r => decide (freshMatch now key maxAgeDays r)) = []) ∧
    ((∀ r ∈ db, r.cache_key = some key →
        maxAgeDays * 86400 < now - r.created_at) →
      get_cached_recipes db now key maxAgeDays = none) ∧
    get_cached_recipes db now key = get_cached_recipes db now key 7 := by
  have hfilter : db.filter
      (fun r => r.cache_key == some key && decide (now - maxAgeDays * 86400 ≤ r.created_at))
      = db.filter (fun r => decide (freshMatch now key maxAgeDays r)) := by
    apply List.filter_congr
    intro r _
    rw [Bool.eq_iff_iff]
    simp only [freshMatch, Bool.and_eq_true, beq_iff_eq, decide_eq_true_eq]
    constructor
    · rintro ⟨h1, h2⟩; exact ⟨h1, by omega⟩
    · rintro ⟨h1, h2⟩; exact ⟨h1, by omega⟩
  have hchar : get_cached_recipes db now key maxAgeDays =
      if 0 < (db.filter (fun r => decide (freshMatch now key maxAgeDays r))).length
      then some (db.filter (fun r => decide (freshMatch now key maxAgeDays r))) else none := by
    have h0 : get_cached_recipes db now key maxAgeDays =
        if 0 < (db.filter (fun r => r.cache_key == some key &&
            decide (now - maxAgeDays * 86400 ≤ r.created_at))).length
        then some (db.filter (fun r => r.cache_key == some key &&
            decide (now - maxAgeDays * 86400 ≤ r.created_at))) else none := rfl
    rw [h0, hfilter]
  refine ⟨?_, ?_, ?_, rfl⟩
  · intro l hl
    rw [hchar] at hl
    by_cases hpos : 0 < (db.filter (fun r => decide (freshMatch now key maxAgeDays r))).length
    · simp only [hpos, if_pos] at hl
      refine ⟨(Option.some_inj.mp hl).symm, ?_⟩
      rw [← (Option.some_inj.mp hl)]
      intro hnil
      rw [hnil] at hpos
      simp at hpos
    · simp only [hpos, if_neg, if_false] at hl
      cases hl
  · rw [hchar]
    by_cases hpos : 0 < (db.filter (fun r => decide (freshMatch now key maxAgeDays r))).length
    · simp only [hpos, if_pos]
      constructor
      · intro h; cases h
      · intro h; rw [h] at hpos; simp at hpos
    · simp only [hpos, if_neg, if_false]
      constructor
      · intro _
        rcases List.eq_nil_or_concat (db.filter (fun r => decide (freshMatch now key maxAgeDays r)))
          with h | ⟨l', a, h⟩
        · exact h
        · rw [h] at hpos; simp at hpos
      · intro _; trivial
  · intro hall
    rw [hchar]
    have : db.filter (fun r => decide (freshMatch now key maxAgeDays r)) = [] := by
      rw [List.filter_eq_nil_iff]
      intro r hr
      simp only [freshMatch, decide_eq_true_eq, not_and]
      intro h1
      have := hall r hr h1
      omega
    rw [this]
    simp

/-- Witness for C5: a fresh hit is returned, an expired-only store and a
wrong-key store both miss. -/
theorem get_cached_recipes_spec_witness :
    ([⟨some "k", 700000⟩] : List CachedRecipe) ≠ [] ∧
    get_cached_recipes [⟨(some "k" : Option String), (100 : Int)⟩] (86400 * 10) "k" 7 = none := by
  constructor
  · exact ((get_cached_recipes_spec [⟨some "k", 700000⟩, ⟨some "k", 100⟩] 700001 "k" 7).1
      [⟨some "k", 700000⟩] (by decide)).2
  · exact (get_cached_recipes_spec [⟨some "k", 100⟩] (86400 * 10) "k" 7).2.2.1
      (by intro r hr h1; fin_cases hr; simp_all)

/-! ## C8 — batch persistence: partial salvage, all-fail escalation -/

/-- C8: the storage loop of `generate_recipes` succeeds with exactly the
drafts that persisted whenever at least one did — an individual
persistence failure never aborts the batch — and raises a generation
error precisely when every draft failed to persist. -/
theorem persist_batch_spec {D R E : Type} (store : D → Except E R) (drafts : List D) :
    (persist_batch store drafts
        = .ok (drafts.filterMap fun d => (store d).toOption) ↔
      ∃ d ∈ drafts, ∃ r, store d = .ok r) ∧
    ((∃ m, persist_batch store drafts = .error m) ↔
      ∀ d ∈ drafts, ∃ e, store d = .error e) ∧
    (∀ l, persist_batch store drafts = .ok l →
      l = drafts.filterMap fun d => (store d).toOption) := by
  have hsome : ∀ d : D, (store d).toOption.isSome ↔ ∃ r, store d = .ok r := by
    intro d
    cases h : store d <;> simp [Except.toOption]
  have herr : ∀ d : D, (store d).toOption = none ↔ ∃ e, store d = .error e := by
    intro d
    cases h : store d <;> simp [Except.toOption]
  have hnil : (drafts.filterMap fun d => (store d).toOption) = []
      ↔ ∀ d ∈ drafts, ∃ e, store d = .error e := by
    rw [List.filterMap_eq_nil_iff]
    constructor
    · intro h d hd; exact (herr d).mp (h d hd)
    · intro h d hd; exact (herr d).mpr (h d hd)
  refine ⟨?_, ?_, ?_⟩
  · unfold persist_batch
    by_cases h : (drafts.filterMap fun d => (store d).toOption).length = 0
    · simp only [h, if_pos]
      rw [List.length_eq_zero] at h
      constructor
      · intro hc; cases hc
      · rintro ⟨d, hd, r, hr⟩
        have := hnil.mp h d hd
        rw [hr] at this
        rcases this with ⟨e, he⟩
        cases he
    · simp only [h, if_neg]
      constructor
      · intro _
        have hne : (drafts.filterMap fun d => (store d).toOption) ≠ [] := by
          intro hc; rw [hc] at h; simp at h
        rcases List.exists_mem_of_ne_nil _ hne with ⟨r, hr⟩
        rcases List.mem_filterMap.mp hr with ⟨d, hd, hdr⟩
        refine ⟨d, hd, r, ?_⟩
        cases hsd : store d <;> rw [hsd] at hdr <;> simp [Except.toOption] at hdr
        rw [hdr]
      · intro _; rfl
  · unfold persist_batch
    by_cases h : (drafts.filterMap fun d => (store d).toOption).length = 0
    · simp only [h, if_pos]
      rw [List.length_eq_zero] at h
      constructor
      · intro _; exact hnil.mp h
      · intro _; exact ⟨"Failed to store any recipes in database", rfl⟩
    · simp only [h, if_neg]
      constructor
      · rintro ⟨m, hm⟩; cases hm
      · intro hall
        exact absurd (List.length_eq_zero.mpr (hnil.mpr hall)) h
  · intro l hl
    unfold persist_batch at hl
    by_cases h : (drafts.filterMap fun d => (store d).toOption).length = 0
    · simp only [h, if_pos] at hl; cases hl
    · simp only [h, if_neg] at hl
      exact (Option.some_inj.mp (congrArg Except.toOption hl)).symm

/-- Witness for C8: one failing draft among two does not abort the batch;
a batch in which everything fails raises. -/
theorem persist_batch_spec_witness :
    (∃ d ∈ [1, 2], ∃ r, (fun d : Nat => if d == 1 then (.error "boom" : Except String Nat) else .ok (d * 10)) d = .ok r) ∧
    (∀ d ∈ [1], ∃ e, (fun _ : Nat => (.error "boom" : Except String Nat)) d = .error e) := by
  constructor
  · exact (persist_batch_spec (fun d : Nat => if d == 1 then .error "boom" else .ok (d * 10))
      [1, 2]).1.mp (by rfl)
  · exact (persist_batch_spec (fun _ : Nat => (.error "boom" : Except String Nat)) [1]).2.1.mp
      ⟨"Failed to store any recipes in database", by rfl⟩

/-! ## C4 — generation client: retry, backoff, last error -/

/-- Unfolding equation of the loop body on a nonempty attempt list. -/
theorem runAttempts_cons {E R : Type} (provider : Nat → Except E R) (a : Nat)
    (rest : List Nat) (lastErr : Option E) :
    runAttempts provider (a :: rest) lastErr =
      match provider a with
      | .ok r => (.ok r, 1, [])
      | .error e =>
        match rest with
        | [] => (.error (some e), 1, [])
        | b :: rest2 =>
          let x := runAttempts provider (b :: rest2) (some e)
          (x.1, x.2.1 + 1, (2 ^ a : Nat) :: x.2.2) := by
  conv_lhs => rw [runAttempts]

/-- When every attempt in the window fails, the loop makes every attempt,
waits `2^attempt` after each non-final one, and surfaces the last error. -/
theorem runAttempts_all_fail {E R : Type} (provider : Nat → Except E R) :
    ∀ len s lastErr, 1 ≤ len →
      (∀ a, s ≤ a → a < s + len → ∃ e, provider a = .error e) →
      ∃ e, provider (s + len - 1) = .error e ∧
        runAttempts provider (List.range' s len) lastErr
          = (.error (some e), len, (List.range' s (len - 1)).map fun a => (2 : Nat) ^ a) := by
  intro len
  induction len with
  | zero => intro s lastErr h1; omega
  | succ m ih =>
    intro s lastErr _ h
    rcases h s (by omega) (by omega) with ⟨e, he⟩
    cases m with
    | zero =>
      refine ⟨e, by simpa using he, ?_⟩
      have hcons : List.range' s 1 = [s] := rfl
      rw [hcons, runAttempts_cons, he]
      rfl
    | succ m' =>
      rcases ih (s + 1) (some e) (by omega)
        (by intro a ha1 ha2; exact h a (by omega) (by omega)) with ⟨e', he', hrun⟩
      refine ⟨e', by convert he' using 2; omega, ?_⟩
      have hcons : List.range' s (m' + 2) = s :: List.range' (s + 1) (m' + 1) := rfl
      have hcons2 : List.range' (s + 1) (m' + 1)
          = (s + 1) :: List.range' (s + 2) m' := rfl
      rw [hcons, runAttempts_cons, he]
      simp only [hcons2]
      rw [← hcons2, hrun]
      have hw : List.range' s (m' + 1) = s :: List.range' (s + 1) m' := rfl
      simp [hw]

/-- When the first success comes at attempt `k`, the loop returns it
after exactly `k + 1` attempts, having waited after each of the `k`
failures before it. -/
theorem runAttempts_first_ok {E R : Type} (provider : Nat → Except E R) :
    ∀ k len s lastErr r, k < len → provider (s + k) = .ok r →
      (∀ a, s ≤ a → a < s + k → ∃ e, provider a = .error e) →
      runAttempts provider (List.range' s len) lastErr
        = (.ok r, k + 1, (List.range' s k).map fun a => (2 : Nat) ^ a) := by
  intro k
  induction k with
  | zero =>
    intro len s lastErr r hk hok _
    cases len with
    | zero => omega
    | succ m =>
      have hcons : List.range' s (m + 1) = s :: List.range' (s + 1) m := rfl
      rw [show s + 0 = s from rfl] at hok
      rw [hcons, runAttempts_cons, hok]
      rfl
  | succ k' ih =>
    intro len s lastErr r hk hok h
    cases len with
    | zero => omega
    | succ m =>
      rcases h s (by omega) (by omega) with ⟨e, he⟩
      cases m with
      | zero => omega
      | succ m' =>
        have hcons : List.range' s (m' + 2) = s :: List.range' (s + 1) (m' + 1) := rfl
        have hcons2 : List.range' (s + 1) (m' + 1)
            = (s + 1) :: List.range' (s + 2) m' := rfl
        rw [hcons, runAttempts_cons, he]
        simp only [hcons2]
        rw [← hcons2]
        rw [ih (m' + 1) (s + 1) (some e) r (by omega)
          (by convert hok using 2; omega)
          (by intro a ha1 ha2; exact h a (by omega) (by omega))]
        have hw : List.range' s (k' + 1) = s :: List.range' (s + 1) k' := rfl
        simp [hw]

/-- C4: for `max_retries ≥ 1`, if the provider fails on every attempt the
client surfaces the last underlying error after exactly `max_retries`
attempts with waits `2^0, 2^1, …` between consecutive attempts; if some
attempt succeeds (all earlier ones failing), the client returns that
response immediately after `attempt + 1` attempts. -/
theorem generate_completion_spec {E R : Type} (provider : Nat → Except E R) (n : Nat)
    (hn : 1 ≤ n) :
    ((∀ a, a < n → ∃ e, provider a = .error e) →
      ∃ e, provider (n - 1) = .error e ∧
        generate_completion provider n
          = (.error (some e), n, (List.range (n - 1)).map fun a => (2 : Nat) ^ a)) ∧
    (∀ k r, k < n → provider k = .ok r →
      (∀ a, a < k → ∃ e, provider a = .error e) →
      generate_completion provider n
        = (.ok r, k + 1, (List.range k).map fun a => (2 : Nat) ^ a)) := by
  constructor
  · intro h
    rcases runAttempts_all_fail provider n 0 none hn
      (by intro a _ ha2; exact h a (by omega)) with ⟨e, he, hrun⟩
    refine ⟨e, by simpa using he, ?_⟩
    unfold generate_completion
    rw [List.range_eq_range', hrun, ← List.range_eq_range']
  · intro k r hk hok h
    unfold generate_completion
    rw [List.range_eq_range',
      runAttempts_first_ok provider k n 0 none r hk (by simpa using hok)
        (by intro a _ ha2; exact h a (by omega)),
      ← List.range_eq_range']

/-- Witness for C4: an always-failing provider at `max_retries = 2`, and
a provider first succeeding on its second attempt at `max_retries = 3`. -/
theorem generate_completion_spec_witness :
    (∃ e, (fun a : Nat => (.error (toString a) : Except String Nat)) (2 - 1) = .error e ∧
      generate_completion (fun a : Nat => (.error (toString a) : Except String Nat)) 2
        = (.error (some e), 2, (List.range (2 - 1)).map fun a => (2 : Nat) ^ a)) ∧
    generate_completion
        (fun a : Nat => if a = 1 then (.ok 42 : Except String Nat) else .error (toString a)) 3
      = (.ok 42, 1 + 1, (List.range 1).map fun a => (2 : Nat) ^ a) := by
  constructor
  · exact (generate_completion_spec (fun a : Nat => .error (toString a)) 2 (by omega)).1
      (fun a _ => ⟨toString a, rfl⟩)
  · exact (generate_completion_spec
        (fun a : Nat => if a = 1 then (.ok 42 : Except String Nat) else .error (toString a))
        3 (by omega)).2 1 42 (by omega) (by simp)
      (by intro a ha; interval_cases a; exact ⟨toString 0, by simp⟩)

/-! ## C6 — match percentage -/

/-- The computable rational floor is the floor. -/
theorem ratFloor_eq (q : ℚ) : q.floor = ⌊q⌋ :=
  (Rat.floor_def' q).trans Rat.floor_def.symm

/-- Round-half-to-even of a nonnegative value is nonnegative. -/
theorem roundHalfEven_nonneg (x : ℚ) (hx : 0 ≤ x) : 0 ≤ roundHalfEven x := by
  unfold roundHalfEven
  rw [ratFloor_eq]
  have hf : (0 : ℤ) ≤ ⌊x⌋ := Int.le_floor.mpr (by exact_mod_cast hx)
  split_ifs <;> omega

/-- Round-half-to-even never exceeds an integer upper bound. -/
theorem roundHalfEven_le (x : ℚ) (B : ℤ) (h : x ≤ B) : roundHalfEven x ≤ B := by
  unfold roundHalfEven
  rw [ratFloor_eq]
  have hfB : ⌊x⌋ ≤ B := by
    have := Int.floor_le_floor h
    rwa [Int.floor_intCast] at this
  have hfle : (⌊x⌋ : ℚ) ≤ x := Int.floor_le x
  split_ifs with h1 h2 h3
  · omega
  · have hx2 : (⌊x⌋ : ℚ) + 1 / 2 < x := by linarith
    have hlt : (⌊x⌋ : ℚ) < (B : ℚ) := by linarith
    have : ⌊x⌋ < B := by exact_mod_cast hlt
    omega
  · omega
  · have hx2 : (⌊x⌋ : ℚ) + 1 / 2 ≤ x := by linarith [not_lt.mp h1]
    have hlt : (⌊x⌋ : ℚ) < (B : ℚ) := by linarith
    have : ⌊x⌋ < B := by exact_mod_cast hlt
    omega

/-- One-decimal rounding preserves nonnegativity. -/
theorem pyRound1_nonneg (x : ℚ) (hx : 0 ≤ x) : 0 ≤ pyRound1 x := by
  unfold pyRound1
  have := roundHalfEven_nonneg (10 * x) (by linarith)
  have hc : (0 : ℚ) ≤ (roundHalfEven (10 * x) : ℚ) := by exact_mod_cast this
  linarith

/-- One-decimal rounding preserves the bound 100. -/
theorem pyRound1_le_100 (x : ℚ) (hx : x ≤ 100) : pyRound1 x ≤ 100 := by
  unfold pyRound1
  have h1000 : roundHalfEven (10 * x) ≤ (1000 : ℤ) :=
    roundHalfEven_le (10 * x) 1000 (by push_cast; linarith)
  have hc : (roundHalfEven (10 * x) : ℚ) ≤ 1000 := by exact_mod_cast h1000
  linarith

/-- The denominator set in the specification's words: the non-optional
ingredients, falling back to all ingredients when every one is optional. -/
def specDenom (ris : List RIng) : List RIng :=
  if ris.filter (fun ri => !ri.is_optional) = [] then ris
  else ris.filter (fun ri => !ri.is_optional)

/-- C6 (amended): the match percentage is within `[0, 100]` with one
decimal place, equals the rounded matching share over the non-optional
ingredients (all ingredients when every one is optional), is `0.0` on an
ingredient-less recipe, and is `100.0` when the recipe has at least one
non-optional ingredient and all of them appear in the user set.  (As
stated, the claim fails for all-optional recipes — see the
counterexample.) -/
theorem calculate_match_percentage_spec (ris : List RIng) (uis : List String) :
    (0 ≤ calculate_match_percentage ris uis ∧ calculate_match_percentage ris uis ≤ 100) ∧
    (∃ z : ℤ, calculate_match_percentage ris uis = (z : ℚ) / 10) ∧
    (ris = [] → calculate_match_percentage ris uis = 0) ∧
    (ris ≠ [] →
      calculate_match_percentage ris uis
        = pyRound1 (((((specDenom ris).filter fun ri =>
              decide (normalize_ingredient_name ri.name
                ∈ uis.map normalize_ingredient_name)).length : ℚ)
            / ((specDenom ris).length : ℚ)) * 100)) ∧
    ((ris.filter fun ri => !ri.is_optional) ≠ [] →
      (∀ ri ∈ ris.filter fun ri => !ri.is_optional,
        normalize_ingredient_name ri.name ∈ uis.map normalize_ingredient_name) →
      calculate_match_percentage ris uis = 100) := by
  have hcontains : ∀ ri : RIng,
      ((uis.map normalize_ingredient_name).contains (normalize_ingredient_name ri.name))
        = decide (normalize_ingredient_name ri.name ∈ uis.map normalize_ingredient_name) := by
    intro ri
    rw [Bool.eq_iff_iff]
    simp
  have hmain : calculate_match_percentage ris uis
      = if ris.isEmpty then 0
        else pyRound1 (((((specDenom ris).filter fun ri =>
            decide (normalize_ingredient_name ri.name
              ∈ uis.map normalize_ingredient_name)).length : ℚ)
          / ((specDenom ris).length : ℚ)) * 100) := by
    unfold calculate_match_percentage specDenom
    by_cases hris : ris.isEmpty
    · simp [hris]
    · simp only [hris, if_false]
      have hreq : (if (ris.filter fun ri => !ri.is_optional).isEmpty then ris
          else ris.filter fun ri => !ri.is_optional)
          = (if (ris.filter fun ri => !ri.is_optional) = [] then ris
          else ris.filter fun ri => !ri.is_optional) := by
        by_cases hh : (ris.filter fun ri => !ri.is_optional) = []
        · simp [hh]
        · rw [if_neg hh, if_neg (by simpa [List.isEmpty_iff] using hh)]
      have hfc : ∀ l : List RIng,
          (l.filter fun ri => (uis.map normalize_ingredient_name).contains
            (normalize_ingredient_name ri.name))
          = l.filter fun ri =>
              decide (normalize_ingredient_name ri.name ∈ uis.map normalize_ingredient_name) :=
        fun l => List.filter_congr (fun ri _ => hcontains ri)
      rw [hreq, hfc]
  by_cases hris : ris = []
  · subst hris
    have h0 : calculate_match_percentage [] uis = 0 := rfl
    refine ⟨⟨by rw [h0], by rw [h0]; norm_num⟩, ⟨0, by rw [h0]; norm_num⟩,
      fun _ => h0, fun h => absurd rfl h, fun h _ => ?_⟩
    exact absurd (by simp : (List.filter (fun ri => !ri.is_optional) ([] : List RIng)) = []) h
  · have hrisB : ris.isEmpty = false := by simpa [List.isEmpty_iff] using hris
    have hden_ne : specDenom ris ≠ [] := by
      unfold specDenom
      split_ifs with hh
      · exact hris
      · exact hh
    have hden_pos : 0 < ((specDenom ris).length : ℚ) := by
      have : 0 < (specDenom ris).length := List.length_pos.mpr hden_ne
      exact_mod_cast this
    set num := (((specDenom ris).filter fun ri =>
        decide (normalize_ingredient_name ri.name
          ∈ uis.map normalize_ingredient_name)).length : ℚ) with hnum
    set den := ((specDenom ris).length : ℚ) with hden
    have hnum_nonneg : 0 ≤ num := by positivity
    have hnum_le : num ≤ den := by
      rw [hnum, hden]
      exact_mod_cast List.length_filter_le _ _
    have hratio_nonneg : 0 ≤ num / den * 100 := by positivity
    have hratio_le : num / den * 100 ≤ 100 := by
      have h1 : num / den ≤ 1 := div_le_one_of_le₀ hnum_le (le_of_lt hden_pos)
      calc num / den * 100 ≤ 1 * 100 := by
            apply mul_le_mul_of_nonneg_right h1 (by norm_num)
        _ = 100 := by norm_num
    have hval : calculate_match_percentage ris uis = pyRound1 (num / den * 100) := by
      rw [hmain, hrisB]
      rfl
    refine ⟨⟨?_, ?_⟩, ⟨roundHalfEven (10 * (num / den * 100)), by rw [hval]; rfl⟩,
      fun h => absurd h hris, fun _ => by rw [hval], ?_⟩
    · rw [hval]; exact pyRound1_nonneg _ hratio_nonneg
    · rw [hval]; exact pyRound1_le_100 _ hratio_le
    · intro hne hall
      have hdeq : specDenom ris = ris.filter fun ri => !ri.is_optional := by
        unfold specDenom
        rw [if_neg hne]
      have hfull : ((specDenom ris).filter fun ri =>
          decide (normalize_ingredient_name ri.name
            ∈ uis.map normalize_ingredient_name)) = specDenom ris := by
        rw [List.filter_eq_self]
        intro ri hri
        rw [hdeq] at hri
        exact decide_eq_true (hall ri hri)
      have hnum_eq : num = den := by rw [hnum, hden, hfull]
      rw [hval, hnum_eq, div_self (ne_of_gt hden_pos), one_mul]
      have h1000 : roundHalfEven 1000 = 1000 := by
        unfold roundHalfEven
        rw [ratFloor_eq, show ((1000 : ℚ)) = ((1000 : ℤ) : ℚ) by norm_num, Int.floor_intCast]
        norm_num
      unfold pyRound1
      rw [show (10 * (100 : ℚ)) = 1000 by norm_num, h1000]
      norm_num

/-- C6 counterexample: a recipe whose single ingredient is optional has
every (zero) non-optional ingredient present in the empty user set, yet
its match percentage is `0.0`, not `100.0`. -/
theorem calculate_match_percentage_all_optional_not_100 :
    (∀ ri ∈ ([⟨"saffron", true⟩] : List RIng).filter fun ri => !ri.is_optional,
      normalize_ingredient_name ri.name ∈ ([] : List String).map normalize_ingredient_name) ∧
    calculate_match_percentage [⟨"saffron", true⟩] [] = 0 ∧
    calculate_match_percentage [⟨"saffron", true⟩] [] ≠ 100 := by
  have hv : calculate_match_percentage [⟨"saffron", true⟩] []
      = pyRound1 (((0 : ℕ) : ℚ) / ((1 : ℕ) : ℚ) * 100) := rfl
  have hz : pyRound1 (((0 : ℕ) : ℚ) / ((1 : ℕ) : ℚ) * 100) = 0 := by
    rw [show (((0 : ℕ) : ℚ) / ((1 : ℕ) : ℚ) * 100) = 0 by norm_num]
    unfold pyRound1 roundHalfEven
    rw [ratFloor_eq]
    norm_num
  refine ⟨?_, hv.trans hz, ?_⟩
  · intro ri hri
    simp [RIng.mk.injEq] at hri
  · rw [hv, hz]
    norm_num

/-- Witness for C6: a fully matched single-required-ingredient recipe
scores exactly 100. -/
theorem calculate_match_percentage_spec_witness :
    calculate_match_percentage [⟨"Tomato", false⟩] ["tomato!"] = 100 :=
  (calculate_match_percentage_spec [⟨"Tomato", false⟩] ["tomato!"]).2.2.2.2
    (by decide) (by decide)

/-! ## Parser lemmas (shared by the C3 and C9 theorems) -/

/-- Field checking on an object succeeds exactly when every field is a
key of the object. -/
theorem checkFields_obj_ok (i : Nat) (entries : List (String × Json)) :
    ∀ fs, checkFields i (.obj entries) fs = .ok ()
      ↔ ∀ f ∈ fs, (lookupKey entries f).isSome := by
  intro fs
  induction fs with
  | nil => simp [checkFields]
  | cons f rest ih =>
    by_cases hf : (lookupKey entries f).isSome
    · simp [checkFields, pyContains, hf, ih]
    · simp [checkFields, pyContains, hf]

/-- The ingredient loop succeeds exactly when every entry is an object
with a `name` key. -/
theorem checkIngredients_ok (i : Nat) :
    ∀ elems j, checkIngredients i j elems = .ok ()
      ↔ ∀ ing ∈ elems, specIngredientBad ing = false := by
  intro elems
  induction elems with
  | nil => simp [checkIngredients]
  | cons ing rest ih =>
    intro j
    cases ing with
    | obj entries =>
      by_cases hn : (lookupKey entries "name").isSome
      · simp [checkIngredients, hn, ih, specIngredientBad]
      · simp [checkIngredients, hn, specIngredientBad]
    | null => simp [checkIngredients, specIngredientBad]
    | bool b => simp [checkIngredients, specIngredientBad]
    | num n => simp [checkIngredients, specIngredientBad]
    | str s => simp [checkIngredients, specIngredientBad]
    | arr xs => simp [checkIngredients, specIngredientBad]

/-- On a non-object, field checking either raises a missing-field error
or passes with the subscript raising afterwards — it never certifies the
value; in all cases `validateRecipe` fails. -/
theorem validateRecipe_ok_obj (i : Nat) (r : Json) (h : validateRecipe i r = .ok ()) :
    ∃ entries, r = .obj entries := by
  cases r with
  | obj entries => exact ⟨entries, rfl⟩
  | null =>
    unfold validateRecipe at h
    cases hcf : checkFields i .null requiredFields with
    | error e => rw [hcf] at h; cases h
    | ok u => rw [hcf] at h; simp [pySubscript] at h
  | bool b =>
    unfold validateRecipe at h
    cases hcf : checkFields i (.bool b) requiredFields with
    | error e => rw [hcf] at h; cases h
    | ok u => rw [hcf] at h; simp [pySubscript] at h
  | num n =>
    unfold validateRecipe at h
    cases hcf : checkFields i (.num n) requiredFields with
    | error e => rw [hcf] at h; cases h
    | ok u => rw [hcf] at h; simp [pySubscript] at h
  | str s =>
    unfold validateRecipe at h
    cases hcf : checkFields i (.str s) requiredFields with
    | error e => rw [hcf] at h; cases h
    | ok u => rw [hcf] at h; simp [pySubscript] at h
  | arr xs =>
    unfold validateRecipe at h
    cases hcf : checkFields i (.arr xs) requiredFields with
    | error e => rw [hcf] at h; cases h
    | ok u => rw [hcf] at h; simp [pySubscript] at h

/-- Per-recipe validation succeeds exactly when the entry satisfies 4.7's
per-recipe conditions. -/
theorem validateRecipe_ok_iff (i : Nat) (r : Json) :
    validateRecipe i r = .ok () ↔ specRecipeBad r = false := by
  constructor
  · intro h
    rcases validateRecipe_ok_obj i r h with ⟨entries, rfl⟩
    unfold validateRecipe at h
    cases hcf : checkFields i (.obj entries) requiredFields with
    | error e => rw [hcf] at h; simp at h
    | ok u =>
      cases u
      rw [hcf] at h
      dsimp only at h
      have hfields := (checkFields_obj_ok i entries requiredFields).mp (by rw [hcf])
      simp only [pySubscript] at h
      cases hing : lookupKey entries "ingredients" with
      | none => rw [hing] at h; simp at h
      | some ings =>
        rw [hing] at h
        dsimp only at h
        cases ings with
        | arr elems =>
          dsimp only at h
          cases hci : checkIngredients i 0 elems with
          | error e => rw [hci] at h; simp at h
          | ok u2 =>
            cases u2
            rw [hci] at h
            dsimp only at h
            cases hinstr : lookupKey entries "instructions" with
            | none => rw [hinstr] at h; simp at h
            | some instr =>
              rw [hinstr] at h
              dsimp only at h
              cases instr with
              | arr ys =>
                have hings_ok := (checkIngredients_ok i elems 0).mp (by rw [hci])
                simp only [specRecipeBad, hing, hinstr, Bool.or_eq_false_iff]
                refine ⟨?_, ?_, trivial⟩
                · simp only [List.any_eq_false, Bool.not_eq_true]
                  intro f hf
                  simp [objHasKey, hfields f hf]
                · simp only [List.any_eq_false, Bool.not_eq_true]
                  intro ing hmem
                  simp [hings_ok ing hmem]
              | null => simp at h
              | bool b => simp at h
              | num n => simp at h
              | str s => simp at h
              | obj o2 => simp at h
        | null => simp at h
        | bool b => simp at h
        | num n => simp at h
        | str s => simp at h
        | obj o2 => simp at h
  · intro hbad
    have hr : ∃ entries, r = .obj entries := by
      cases r with
      | obj entries => exact ⟨entries, rfl⟩
      | null => simp [specRecipeBad, objHasKey, requiredFields] at hbad
      | bool b => simp [specRecipeBad, objHasKey, requiredFields] at hbad
      | num n => simp [specRecipeBad, objHasKey, requiredFields] at hbad
      | str s => simp [specRecipeBad, objHasKey, requiredFields] at hbad
      | arr xs => simp [specRecipeBad, objHasKey, requiredFields] at hbad
    rcases hr with ⟨entries, rfl⟩
    simp only [specRecipeBad, Bool.or_eq_false_iff, List.any_eq_false,
      Bool.not_eq_true] at hbad
    obtain ⟨hfields, hrest⟩ := hbad
    have hfields' : ∀ f ∈ requiredFields, (lookupKey entries f).isSome := by
      intro f hf
      have := hfields f hf
      simpa [objHasKey] using this
    unfold validateRecipe
    rw [(checkFields_obj_ok i entries requiredFields).mpr hfields']
    dsimp only
    have hingS : (lookupKey entries "ingredients").isSome :=
      hfields' "ingredients" (by simp [requiredFields])
    have hinstrS : (lookupKey entries "instructions").isSome :=
      hfields' "instructions" (by simp [requiredFields])
    simp only [pySubscript]
    cases hing : lookupKey entries "ingredients" with
    | none => rw [hing] at hingS; cases hingS
    | some ings =>
      rw [hing] at hrest
      cases ings with
      | arr elems =>
        dsimp only at hrest
        obtain ⟨hings_bad, hinstr_bad⟩ := hrest
        have hall : ∀ ing ∈ elems, specIngredientBad ing = false := by
          rw [List.any_eq_false] at hings_bad
          intro ing hmem
          simpa using hings_bad ing hmem
        dsimp only
        rw [(checkIngredients_ok i elems 0).mpr hall]
        dsimp only
        cases hinstr : lookupKey entries "instructions" with
        | none => rw [hinstr] at hinstrS; cases hinstrS
        | some instr =>
          rw [hinstr] at hinstr_bad
          cases instr with
          | arr ys => rfl
          | null => simp at hinstr_bad
          | bool b => simp at hinstr_bad
          | num n => simp at hinstr_bad
          | str s => simp at hinstr_bad
          | obj o2 => simp at hinstr_bad
      | null => simp at hrest
      | bool b => simp at hrest
      | num n => simp at hrest
      | str s => simp at hrest
      | obj o2 => simp at hrest

/-- The loop over all recipes succeeds exactly when every entry is good. -/
theorem validateAll_ok_iff : ∀ (rs : List Json) (i : Nat),
    validateAll i rs = .ok () ↔ ∀ r ∈ rs, specRecipeBad r = false := by
  intro rs
  induction rs with
  | nil => simp [validateAll]
  | cons r rest ih =>
    intro i
    cases hvr : validateRecipe i r with
    | error e =>
      simp only [validateAll, hvr]
      constructor
      · intro h; cases h
      · intro h
        have := (validateRecipe_ok_iff i r).mpr (h r (by simp))
        rw [hvr] at this
        cases this
    | ok u =>
      simp only [validateAll, hvr]
      constructor
      · intro h r' hr'
        rcases List.mem_cons.mp hr' with rfl | hmem
        · exact (validateRecipe_ok_iff i r').mp (by rw [hvr])
        · exact ((ih (i + 1)).mp h) r' hmem
      · intro h
        exact (ih (i + 1)).mpr (fun r' hr' => h r' (List.mem_cons_of_mem r hr'))

/-- Validating past a clean prefix shifts the index by its length. -/
theorem validateAll_append (rest : List Json) : ∀ (pre : List Json) (i : Nat),
    (∀ r ∈ pre, specRecipeBad r = false) →
    validateAll i (pre ++ rest) = validateAll (i + pre.length) rest := by
  intro pre
  induction pre with
  | nil => intro i _; simp [validateAll]
  | cons p pre' ih =>
    intro i hpre
    have hp : validateRecipe i p = .ok () :=
      (validateRecipe_ok_iff i p).mpr (hpre p (by simp))
    have : (p :: pre') ++ rest = p :: (pre' ++ rest) := rfl
    rw [this]
    simp only [validateAll, hp]
    rw [ih (i + 1) (fun r hr => hpre r (List.mem_cons_of_mem p hr))]
    congr 1
    simp [List.length_cons]
    omega

/-- A list is a prefix of itself followed by anything. -/
theorem isPrefixOf_append_self (l r : List Char) : l.isPrefixOf (l ++ r) = true := by
  induction l with
  | nil => simp [List.isPrefixOf]
  | cons c cs ih => simp [List.isPrefixOf, ih]

/-- A pattern occurs in any list that embeds it. -/
theorem substrB_append (pre pat post : List Char) :
    substrB pat (pre ++ (pat ++ post)) = true := by
  unfold substrB
  rw [List.any_eq_true]
  refine ⟨pat ++ post, ?_, isPrefixOf_append_self pat post⟩
  rw [List.mem_tails]
  exact ⟨pre, rfl⟩

/-- A message that embeds a required-field name (or `"ingredient"`)
mentions the failing field. -/
theorem mentionsField_of_embed (m f : String) (pre post : List Char)
    (hm : m.data = pre ++ (f.data ++ post))
    (hf : f ∈ requiredFields ∨ f = "ingredient") : msgMentionsField m = true := by
  unfold msgMentionsField
  rcases hf with hf | rfl
  · refine Bool.or_eq_true_iff.mpr (Or.inl ?_)
    rw [List.any_eq_true]
    exact ⟨f, hf, by rw [hm]; exact substrB_append pre f.data post⟩
  · exact Bool.or_eq_true_iff.mpr
      (Or.inr (by rw [hm]; exact substrB_append pre ("ingredient" : String).data post))

/-- The missing-required-field message mentions its field. -/
theorem mentions_missing_field (i : Nat) (f : String) (hf : f ∈ requiredFields) :
    msgMentionsField ("Recipe " ++ toString i ++ " "
      ++ ("missing required field: " ++ f)) = true :=
  mentionsField_of_embed _ f
    (("Recipe " : String).data ++ ((toString i).data ++ ((" " : String).data
      ++ ("missing required field: " : String).data))) []
    (by simp [String.data_append, List.append_assoc]) (Or.inl hf)

/-- The per-ingredient messages mention the ingredient entry. -/
theorem mentions_ingredient_msg (i j : Nat) (t : String) :
    msgMentionsField ("Recipe " ++ toString i ++ " "
      ++ ("ingredient " ++ toString j ++ t)) = true :=
  mentionsField_of_embed _ "ingredient"
    (("Recipe " : String).data ++ ((toString i).data ++ (" " : String).data))
    ((" " : String).data ++ ((toString j).data ++ t.data))
    (by simp [String.data_append, List.append_assoc,
      show ("ingredient " : String).data
        = ("ingredient" : String).data ++ (" " : String).data from rfl])
    (Or.inr rfl)

/-- A message whose tail starts with a required-field name mentions it. -/
theorem mentions_tail_field (i : Nat) (f t full : String) (hf : f ∈ requiredFields)
    (hsplit : full.data = f.data ++ t.data) :
    msgMentionsField ("Recipe " ++ toString i ++ " " ++ full) = true :=
  mentionsField_of_embed _ f
    (("Recipe " : String).data ++ ((toString i).data ++ (" " : String).data)) t.data
    (by simp [String.data_append, List.append_assoc, hsplit]) (Or.inl hf)

/-- A failing field check on an object names the missing field. -/
theorem checkFields_err (i : Nat) (entries : List (String × Json)) :
    ∀ fs pf, checkFields i (.obj entries) fs = .error pf →
      ∃ f ∈ fs,
        pf = .genErr ("Recipe " ++ toString i ++ " " ++ ("missing required field: " ++ f)) := by
  intro fs
  induction fs with
  | nil => intro pf h; simp [checkFields] at h
  | cons f rest ih =>
    intro pf h
    by_cases hf : (lookupKey entries f).isSome
    · simp only [checkFields, pyContains, hf] at h
      rcases ih pf h with ⟨f', hf', heq⟩
      exact ⟨f', List.mem_cons_of_mem f hf', heq⟩
    · rw [Bool.not_eq_true] at hf
      simp only [checkFields, pyContains, hf] at h
      exact ⟨f, by simp, ((Except.error.injEq _ _).mp h).symm⟩

/-- A failing ingredient check names the offending entry. -/
theorem checkIngredients_err (i : Nat) :
    ∀ elems j pf, checkIngredients i j elems = .error pf →
      ∃ j' : Nat, pf = .genErr ("Recipe " ++ toString i ++ " "
              ++ ("ingredient " ++ toString j' ++ " is not an object"))
        ∨ pf = .genErr ("Recipe " ++ toString i ++ " "
              ++ ("ingredient " ++ toString j' ++ " missing 'name'")) := by
  intro elems
  induction elems with
  | nil => intro j pf h; simp [checkIngredients] at h
  | cons ing rest ih =>
    intro j pf h
    cases ing with
    | obj entries =>
      by_cases hn : (lookupKey entries "name").isSome
      · simp only [checkIngredients, hn, if_pos] at h
        exact ih (j + 1) pf h
      · rw [Bool.not_eq_true] at hn
        simp only [checkIngredients, hn, if_neg, Bool.false_eq_true, if_false] at h
        exact ⟨j, Or.inr ((Except.error.injEq _ _).mp h).symm⟩
    | null => exact ⟨j, Or.inl (by simpa [checkIngredients] using h.symm)⟩
    | bool b => exact ⟨j, Or.inl (by simpa [checkIngredients] using h.symm)⟩
    | num n => exact ⟨j, Or.inl (by simpa [checkIngredients] using h.symm)⟩
    | str s2 => exact ⟨j, Or.inl (by simpa [checkIngredients] using h.symm)⟩
    | arr xs => exact ⟨j, Or.inl (by simpa [checkIngredients] using h.symm)⟩

/-- Every failure of the per-recipe validator on an object entry is an
explicitly raised error whose message names the recipe index and a
failing field. -/
theorem validateRecipe_obj_err (i : Nat) (entries : List (String × Json))
    (pf : ParseFailure) (h : validateRecipe i (.obj entries) = .error pf) :
    ∃ rest, pf = .genErr ("Recipe " ++ toString i ++ " " ++ rest) ∧
      msgMentionsField ("Recipe " ++ toString i ++ " " ++ rest) = true := by
  unfold validateRecipe at h
  cases hcf : checkFields i (.obj entries) requiredFields with
  | error e =>
    rw [hcf] at h
    dsimp only at h
    rcases checkFields_err i entries requiredFields e (by rw [hcf]) with ⟨f, hfmem, rfl⟩
    obtain rfl : ParseFailure.genErr ("Recipe " ++ toString i ++ " "
        ++ ("missing required field: " ++ f)) = pf := by
      exact (Except.error.injEq _ _).mp h
    refine ⟨"missing required field: " ++ f, rfl, ?_⟩
    exact mentions_missing_field i f hfmem
  | ok u =>
    cases u
    rw [hcf] at h
    dsimp only at h
    have hfields := (checkFields_obj_ok i entries requiredFields).mp (by rw [hcf])
    simp only [pySubscript] at h
    have hingS : (lookupKey entries "ingredients").isSome :=
      hfields "ingredients" (by simp [requiredFields])
    have hinstrS : (lookupKey entries "instructions").isSome :=
      hfields "instructions" (by simp [requiredFields])
    cases hing : lookupKey entries "ingredients" with
    | none => rw [hing] at hingS; cases hingS
    | some ings =>
      rw [hing] at h
      dsimp only at h
      cases ings with
      | arr elems =>
        dsimp only at h
        cases hci : checkIngredients i 0 elems with
        | error e =>
          rw [hci] at h
          dsimp only at h
          injection h with h2
          subst h2
          rcases checkIngredients_err i elems 0 e (by rw [hci]) with ⟨j', hdisj⟩
          rcases hdisj with rfl | rfl
          · refine ⟨"ingredient " ++ toString j' ++ " is not an object", rfl, ?_⟩
            exact mentions_ingredient_msg i j' " is not an object"
          · refine ⟨"ingredient " ++ toString j' ++ " missing 'name'", rfl, ?_⟩
            exact mentions_ingredient_msg i j' " missing 'name'"
        | ok u2 =>
          cases u2
          rw [hci] at h
          dsimp only at h
          cases hinstr : lookupKey entries "instructions" with
          | none => rw [hinstr] at hinstrS; cases hinstrS
          | some instr =>
            rw [hinstr] at h
            dsimp only at h
            cases instr with
            | arr ys => simp at h
            | null =>
              obtain rfl := (Except.error.injEq _ _).mp h
              refine ⟨"instructions is not a list", rfl, ?_⟩
              exact mentions_tail_field i "instructions" " is not a list"
                "instructions is not a list" (by simp [requiredFields]) rfl
            | bool b =>
              obtain rfl := (Except.error.injEq _ _).mp h
              refine ⟨"instructions is not a list", rfl, ?_⟩
              exact mentions_tail_field i "instructions" " is not a list"
                "instructions is not a list" (by simp [requiredFields]) rfl
            | num n =>
              obtain rfl := (Except.error.injEq _ _).mp h
              refine ⟨"instructions is not a list", rfl, ?_⟩
              exact mentions_tail_field i "instructions" " is not a list"
                "instructions is not a list" (by simp [requiredFields]) rfl
            | str s2 =>
              obtain rfl := (Except.error.injEq _ _).mp h
              refine ⟨"instructions is not a list", rfl, ?_⟩
              exact mentions_tail_field i "instructions" " is not a list"
                "instructions is not a list" (by simp [requiredFields]) rfl
            | obj o2 =>
              obtain rfl := (Except.error.injEq _ _).mp h
              refine ⟨"instructions is not a list", rfl, ?_⟩
              exact mentions_tail_field i "instructions" " is not a list"
                "instructions is not a list" (by simp [requiredFields]) rfl
      | null =>
        obtain rfl := (Except.error.injEq _ _).mp h
        refine ⟨"ingredients is not a list", rfl, ?_⟩
        exact mentions_tail_field i "ingredients" " is not a list"
          "ingredients is not a list" (by simp [requiredFields]) rfl
      | bool b =>
        obtain rfl := (Except.error.injEq _ _).mp h
        refine ⟨"ingredients is not a list", rfl, ?_⟩
        exact mentions_tail_field i "ingredients" " is not a list"
          "ingredients is not a list" (by simp [requiredFields]) rfl
      | num n =>
        obtain rfl := (Except.error.injEq _ _).mp h
        refine ⟨"ingredients is not a list", rfl, ?_⟩
        exact mentions_tail_field i "ingredients" " is not a list"
          "ingredients is not a list" (by simp [requiredFields]) rfl
      | str s2 =>
        obtain rfl := (Except.error.injEq _ _).mp h
        refine ⟨"ingredients is not a list", rfl, ?_⟩
        exact mentions_tail_field i "ingredients" " is not a list"
          "ingredients is not a list" (by simp [requiredFields]) rfl
      | obj o2 =>
        obtain rfl := (Except.error.injEq _ _).mp h
        refine ⟨"ingredients is not a list", rfl, ?_⟩
        exact mentions_tail_field i "ingredients" " is not a list"
          "ingredients is not a list" (by simp [requiredFields]) rfl

/-- Inversion: a successful parse came from a decoded object whose
`recipes` key holds exactly the returned nonempty list, all valid. -/
theorem parse_ok_inv (input : Except String Json) (out : List Json)
    (h : parse_recipe_response input = .ok out) :
    ∃ entries, input = .ok (.obj entries) ∧ lookupKey entries "recipes" = some (.arr out)
      ∧ out ≠ [] ∧ validateAll 0 out = .ok () := by
  cases input with
  | error e => simp [parse_recipe_response] at h
  | ok data =>
    cases data with
    | obj entries =>
      unfold parse_recipe_response at h
      dsimp only at h
      cases hlk : lookupKey entries "recipes" with
      | none => rw [hlk] at h; simp at h
      | some v =>
        rw [hlk] at h
        dsimp only at h
        cases v with
        | arr rs =>
          cases rs with
          | nil => simp at h
          | cons r rest =>
            dsimp only at h
            cases hva : validateAll 0 (r :: rest) with
            | ok u =>
              cases u
              rw [hva] at h
              dsimp only at h
              obtain rfl : r :: rest = out := (Except.ok.injEq _ _).mp h
              exact ⟨entries, rfl, hlk, by simp, hva⟩
            | error pf =>
              rw [hva] at h
              cases pf with
              | genErr m => simp at h
              | typeErr => simp at h
        | null => simp at h
        | bool b => simp at h
        | num n => simp at h
        | str s2 => simp at h
        | obj o2 => simp at h
    | null => simp [parse_recipe_response] at h
    | bool b => simp [parse_recipe_response] at h
    | num n => simp [parse_recipe_response] at h
    | str s2 => simp [parse_recipe_response] at h
    | arr xs => simp [parse_recipe_response] at h

/-- Construction: a decoded object with a valid nonempty `recipes` list
parses to that list. -/
theorem parse_ok_of (entries : List (String × Json)) (r : Json) (rs : List Json)
    (hlk : lookupKey entries "recipes" = some (.arr (r :: rs)))
    (hva : validateAll 0 (r :: rs) = .ok ()) :
    parse_recipe_response (.ok (.obj entries)) = .ok (r :: rs) := by
  unfold parse_recipe_response
  dsimp only
  rw [hlk]
  dsimp only
  rw [hva]

/-- A non-object recipe entry fails 4.7's conditions. -/
theorem specRecipeBad_of_not_obj (r : Json) (h : ∀ e2, r ≠ .obj e2) :
    specRecipeBad r = true := by
  cases r with
  | obj e2 => exact absurd rfl (h e2)
  | null => simp [specRecipeBad, objHasKey, requiredFields]
  | bool b => simp [specRecipeBad, objHasKey, requiredFields]
  | num n => simp [specRecipeBad, objHasKey, requiredFields]
  | str s2 => simp [specRecipeBad, objHasKey, requiredFields]
  | arr xs => simp [specRecipeBad, objHasKey, requiredFields]

/-! ## C3 — response parser: failure conditions, first violation, messages -/

/-- C3: the parser succeeds exactly when none of 4.7's failure conditions
holds (invalid JSON, non-object decode, missing/`non-list`/empty
`recipes`, a recipe entry missing a required field, bad `ingredients` or
`instructions`); on success it returns exactly the `recipes` list; and
the first violating recipe entry (in iteration order, here for object
entries) aborts the parse with an error message naming that recipe's
index and a failing field. -/
theorem parse_recipe_response_spec (input : Except String Json) :
    ((∃ out, parse_recipe_response input = .ok out) ↔ specParseBad input = false) ∧
    (∀ out, parse_recipe_response input = .ok out →
      ∃ entries, input = .ok (.obj entries)
        ∧ lookupKey entries "recipes" = some (.arr out)) ∧
    (∀ (entries : List (String × Json)) (pre : List Json) (r : Json) (post : List Json),
      input = .ok (.obj entries) →
      lookupKey entries "recipes" = some (.arr (pre ++ r :: post)) →
      (∀ r' ∈ pre, specRecipeBad r' = false) →
      specRecipeBad r = true →
      (∃ e2, r = .obj e2) →
      ∃ rest, parse_recipe_response input
          = .error ("Recipe " ++ toString pre.length ++ " " ++ rest) ∧
        msgMentionsField ("Recipe " ++ toString pre.length ++ " " ++ rest) = true) := by
  refine ⟨⟨?_, ?_⟩, ?_, ?_⟩
  · rintro ⟨out, hok⟩
    rcases parse_ok_inv input out hok with ⟨entries, rfl, hlk, hne, hva⟩
    unfold specParseBad
    dsimp only
    rw [hlk]
    cases out with
    | nil => exact absurd rfl hne
    | cons r rs =>
      dsimp only
      rw [List.any_eq_false]
      intro x hx
      simp [(validateAll_ok_iff (r :: rs) 0).mp hva x hx]
  · intro hspec
    cases input with
    | error e => simp [specParseBad] at hspec
    | ok data =>
      cases data with
      | obj entries =>
        unfold specParseBad at hspec
        dsimp only at hspec
        cases hlk : lookupKey entries "recipes" with
        | none => rw [hlk] at hspec; simp at hspec
        | some v =>
          rw [hlk] at hspec
          cases v with
          | arr rs =>
            cases rs with
            | nil => simp at hspec
            | cons r rest =>
              dsimp only at hspec
              have hva : validateAll 0 (r :: rest) = .ok () := by
                rw [validateAll_ok_iff]
                rw [List.any_eq_false] at hspec
                intro x hx
                have := hspec x hx
                simpa using this
              exact ⟨r :: rest, parse_ok_of entries r rest hlk hva⟩
          | null => simp at hspec
          | bool b => simp at hspec
          | num n => simp at hspec
          | str s2 => simp at hspec
          | obj o2 => simp at hspec
      | null => simp [specParseBad] at hspec
      | bool b => simp [specParseBad] at hspec
      | num n => simp [specParseBad] at hspec
      | str s2 => simp [specParseBad] at hspec
      | arr xs => simp [specParseBad] at hspec
  · intro out hok
    rcases parse_ok_inv input out hok with ⟨entries, rfl, hlk, _, _⟩
    exact ⟨entries, rfl, hlk⟩
  · rintro entries pre r post rfl hlk hpre hbad ⟨e2, rfl⟩
    have hvr_not_ok : validateRecipe pre.length (Json.obj e2) ≠ .ok () := by
      intro hok2
      rw [validateRecipe_ok_iff] at hok2
      rw [hok2] at hbad
      cases hbad
    obtain ⟨pf, hpf⟩ : ∃ pf, validateRecipe pre.length (Json.obj e2) = .error pf := by
      cases hv : validateRecipe pre.length (Json.obj e2) with
      | ok u => cases u; exact absurd hv hvr_not_ok
      | error pf => exact ⟨pf, rfl⟩
    have hva : validateAll 0 (pre ++ (Json.obj e2) :: post) = .error pf := by
      rw [validateAll_append ((Json.obj e2) :: post) pre 0 hpre]
      simp only [Nat.zero_add]
      unfold validateAll
      rw [hpf]
    rcases validateRecipe_obj_err pre.length e2 pf hpf with ⟨rest, rfl, hmention⟩
    refine ⟨rest, ?_, hmention⟩
    obtain ⟨hh, tt, hht⟩ : ∃ hh tt, pre ++ (Json.obj e2) :: post = hh :: tt := by
      cases pre with
      | nil => exact ⟨_, _, rfl⟩
      | cons p ps => exact ⟨_, _, rfl⟩
    unfold parse_recipe_response
    dsimp only
    rw [hlk, hht]
    dsimp only
    rw [← hht, hva]

/-- The sample draft every test uses: well-formed, within bounds. -/
def sampleGoodDraft : Json :=
  .obj [("name", .str "Soup"), ("description", .str "d"),
        ("ingredients", .arr [.obj [("name", .str "tomato")]]),
        ("instructions", .arr [.str "cook"]), ("cooking_time_minutes", .num 30),
        ("difficulty", .str "easy"), ("serving_size", .num 2)]

/-- A draft with every required field present but out-of-bounds values:
zero cooking time, unknown difficulty, zero serving size. -/
def sampleBadValuesDraft : Json :=
  .obj [("name", .str "Stone Soup"), ("description", .str "d"),
        ("ingredients", .arr []), ("instructions", .arr []),
        ("cooking_time_minutes", .num 0), ("difficulty", .str "impossible"),
        ("serving_size", .num 0)]

/-- A draft missing the `description` field. -/
def sampleMissingFieldDraft : Json := .obj [("name", .str "x")]

/-- Witness for C3: a good response parses; a response whose only recipe
lacks `description` aborts with a message naming index 0 and a field. -/
theorem parse_recipe_response_spec_witness :
    (∃ out, parse_recipe_response
      (.ok (.obj [("recipes", .arr [sampleGoodDraft])])) = .ok out) ∧
    (∃ entries, (Except.ok (Json.obj [("recipes", Json.arr [sampleGoodDraft])])
        : Except String Json) = .ok (.obj entries)
      ∧ lookupKey entries "recipes" = some (.arr [sampleGoodDraft])) ∧
    (∃ rest, parse_recipe_response
        (.ok (.obj [("recipes", .arr [sampleMissingFieldDraft])]))
        = .error ("Recipe " ++ toString (0 : Nat) ++ " " ++ rest) ∧
      msgMentionsField ("Recipe " ++ toString (0 : Nat) ++ " " ++ rest) = true) := by
  refine ⟨?_, ?_, ?_⟩
  · exact (parse_recipe_response_spec
      (.ok (.obj [("recipes", .arr [sampleGoodDraft])]))).1.mpr rfl
  · exact (parse_recipe_response_spec
      (.ok (.obj [("recipes", .arr [sampleGoodDraft])]))).2.1 [sampleGoodDraft] rfl
  · exact (parse_recipe_response_spec
      (.ok (.obj [("recipes", .arr [sampleMissingFieldDraft])]))).2.2
      [("recipes", .arr [sampleMissingFieldDraft])] [] sampleMissingFieldDraft []
      rfl rfl (by simp) rfl ⟨[("name", .str "x")], rfl⟩

/-! ## C9 — stored field values (amended) -/

/-- C9 (amended): the persister copies `cooking_time_minutes`,
`difficulty` and `serving_size` verbatim from every parser-accepted
draft; the parser guarantees only their presence, not the data-model
bounds.  (The original claim's bounds are refuted by the
counterexample.) -/
theorem parse_accepted_fields_stored (input : Except String Json) (out : List Json)
    (r : Json) (hok : parse_recipe_response input = .ok out) (hmem : r ∈ out) :
    ∃ entries a b c, r = .obj entries ∧
      lookupKey entries "cooking_time_minutes" = some a ∧
      lookupKey entries "difficulty" = some b ∧
      lookupKey entries "serving_size" = some c ∧
      storedConstrainedFields r = some (a, b, c) := by
  rcases parse_ok_inv input out hok with ⟨entries0, rfl, hlk, hne, hva⟩
  have hgood : specRecipeBad r = false := by
    cases out with
    | nil => cases hmem
    | cons rr rs => exact (validateAll_ok_iff (rr :: rs) 0).mp hva r hmem
  have hobj : ∃ e2, r = .obj e2 := by
    by_contra hc
    push_neg at hc
    rw [specRecipeBad_of_not_obj r hc] at hgood
    cases hgood
  rcases hobj with ⟨e2, rfl⟩
  simp only [specRecipeBad, Bool.or_eq_false_iff, List.any_eq_false,
    Bool.not_eq_true] at hgood
  obtain ⟨hfields, _⟩ := hgood
  have hfieldsAll : ∀ f ∈ requiredFields, (lookupKey e2 f).isSome := by
    intro f hf
    have := hfields f hf
    simpa [objHasKey] using this
  obtain ⟨a, ha⟩ := Option.isSome_iff_exists.mp
    (hfieldsAll "cooking_time_minutes" (by simp [requiredFields]))
  obtain ⟨b, hb⟩ := Option.isSome_iff_exists.mp
    (hfieldsAll "difficulty" (by simp [requiredFields]))
  obtain ⟨c, hc⟩ := Option.isSome_iff_exists.mp
    (hfieldsAll "serving_size" (by simp [requiredFields]))
  refine ⟨e2, a, b, c, rfl, ha, hb, hc, ?_⟩
  unfold storedConstrainedFields pySubscript
  dsimp only
  rw [ha, hb, hc]

/-- C9 counterexample: a draft with `cooking_time_minutes = 0`,
`difficulty = "impossible"` and `serving_size = 0` passes the parser and
its values are stored verbatim, violating every data-model bound. -/
theorem parse_accepts_out_of_bounds_draft :
    parse_recipe_response (.ok (.obj [("recipes", .arr [sampleBadValuesDraft])]))
      = .ok [sampleBadValuesDraft] ∧
    storedConstrainedFields sampleBadValuesDraft
      = some (.num 0, .str "impossible", .num 0) ∧
    jsonPosInt (.num 0) = false ∧ isAllowedDifficulty (.str "impossible") = false :=
  ⟨rfl, rfl, rfl, rfl⟩

/-- Witness for C9 (amended) at the sample good draft. -/
theorem parse_accepted_fields_stored_witness :
    ∃ entries a b c, sampleGoodDraft = .obj entries ∧
      lookupKey entries "cooking_time_minutes" = some a ∧
      lookupKey entries "difficulty" = some b ∧
      lookupKey entries "serving_size" = some c ∧
      storedConstrainedFields sampleGoodDraft = some (a, b, c) :=
  parse_accepted_fields_stored (.ok (.obj [("recipes", .arr [sampleGoodDraft])]))
    [sampleGoodDraft] sampleGoodDraft rfl (List.Mem.head _)

/-! ## C7 — search orchestration: filter before pagination, stable sort -/

/-- Inserting keeps the elements, adding the new one in front. -/
theorem insertDesc_perm {α : Type} (key : α → ℚ) (x : α) (l : List α) :
    (insertDesc key x l).Perm (x :: l) := by
  induction l with
  | nil => exact List.Perm.refl _
  | cons y ys ih =>
    unfold insertDesc
    by_cases h : key y ≤ key x
    · simp only [h, if_pos]
      exact List.Perm.refl _
    · simp only [h, if_neg, Bool.false_eq_true, if_false]
      exact (ih.cons y).trans (List.Perm.swap x y ys)

/-- Sorting permutes the list. -/
theorem sortByKeyDesc_perm {α : Type} (key : α → ℚ) (l : List α) :
    (sortByKeyDesc key l).Perm l := by
  induction l with
  | nil => exact List.Perm.refl _
  | cons x xs ih => exact (insertDesc_perm key x (sortByKeyDesc key xs)).trans (ih.cons x)

/-- Inserting into a descending list keeps it descending. -/
theorem insertDesc_sorted {α : Type} (key : α → ℚ) (x : α) (l : List α)
    (hl : l.Pairwise (fun a b => key b ≤ key a)) :
    (insertDesc key x l).Pairwise (fun a b => key b ≤ key a) := by
  induction l with
  | nil => simp [insertDesc]
  | cons y ys ih =>
    rw [List.pairwise_cons] at hl
    obtain ⟨hy, hys⟩ := hl
    unfold insertDesc
    by_cases h : key y ≤ key x
    · simp only [h, if_pos]
      rw [List.pairwise_cons]
      refine ⟨?_, List.pairwise_cons.mpr ⟨hy, hys⟩⟩
      intro b hb
      rcases List.mem_cons.mp hb with rfl | hb2
      · exact h
      · exact le_trans (hy b hb2) h
    · simp only [h, if_neg, Bool.false_eq_true, if_false]
      rw [List.pairwise_cons]
      refine ⟨?_, ih hys⟩
      intro b hb
      have hb2 := (insertDesc_perm key x ys).mem_iff.mp hb
      rcases List.mem_cons.mp hb2 with rfl | hb3
      · exact le_of_lt (lt_of_not_le h)
      · exact hy b hb3

/-- The whole sort is descending in the key. -/
theorem sortByKeyDesc_sorted {α : Type} (key : α → ℚ) (l : List α) :
    (sortByKeyDesc key l).Pairwise (fun a b => key b ≤ key a) := by
  induction l with
  | nil => simp [sortByKeyDesc]
  | cons x xs ih => exact insertDesc_sorted key x (sortByKeyDesc key xs) ih

/-- Inserting does not reorder any key class (stability, one step). -/
theorem insertDesc_filter {α : Type} (key : α → ℚ) (q : ℚ) (x : α) (l : List α) :
    (insertDesc key x l).filter (fun a => decide (key a = q))
      = ((x :: l).filter fun a => decide (key a = q)) := by
  induction l with
  | nil => rfl
  | cons y ys ih =>
    unfold insertDesc
    by_cases h : key y ≤ key x
    · simp only [h, if_pos]
    · simp only [h, if_neg, Bool.false_eq_true, if_false]
      by_cases hy : key y = q <;> by_cases hx : key x = q
      · exact absurd (le_of_eq (hy.trans hx.symm)) h
      · simp [List.filter_cons, hy, hx, ih]
      · simp [List.filter_cons, hy, hx, ih]
      · simp [List.filter_cons, hy, hx, ih]

/-- Sorting preserves the relative order within every key class: ties
keep their original order. -/
theorem sortByKeyDesc_filter {α : Type} (key : α → ℚ) (q : ℚ) (l : List α) :
    (sortByKeyDesc key l).filter (fun a => decide (key a = q))
      = (l.filter fun a => decide (key a = q)) := by
  induction l with
  | nil => rfl
  | cons x xs ih =>
    unfold sortByKeyDesc
    rw [insertDesc_filter]
    by_cases hx : key x = q <;> simp [List.filter_cons, hx, ih]

/-- The specification's cooking-time condition: inclusive bounds, applied
only when a two-element range is requested. -/
def specTimeOk (ctr : Option (List Int)) (r : SRecipe) : Prop :=
  match ctr with
  | some [mn, mx] => mn ≤ r.cooking_time_minutes ∧ r.cooking_time_minutes ≤ mx
  | _ => True

instance specTimeOkDec (ctr : Option (List Int)) (r : SRecipe) : Decidable (specTimeOk ctr r) :=
  match ctr with
  | none => .isTrue trivial
  | some [] => .isTrue trivial
  | some [_] => .isTrue trivial
  | some [mn, mx] =>
    inferInstanceAs (Decidable (mn ≤ r.cooking_time_minutes ∧ r.cooking_time_minutes ≤ mx))
  | some (_ :: _ :: _ :: _) => .isTrue trivial

/-- The specification's dietary condition: every requested tag present on
the recipe, case-insensitively. -/
def specDietOk (dp : Option (List String)) (r : SRecipe) : Prop :=
  match dp with
  | some (p :: ps) => ∀ pref ∈ p :: ps, pyLower pref ∈ r.dietary_tags.map pyLower
  | _ => True

instance specDietOkDec (dp : Option (List String)) (r : SRecipe) : Decidable (specDietOk dp r) :=
  match dp with
  | none => .isTrue trivial
  | some [] => .isTrue trivial
  | some (p :: ps) =>
    inferInstanceAs (Decidable (∀ pref ∈ p :: ps, pyLower pref ∈ r.dietary_tags.map pyLower))

/-- Both post-filters of 4.9, as one pass. -/
def specFilteredB (f : Filters) (r : SRecipe) : Bool :=
  decide (specTimeOk f.cooking_time_range r) && decide (specDietOk f.dietary_preferences r)

/-- The page of the filtered working set, in original retrieval order,
paired with its match percentages. -/
def specPageList (recipes : List SRecipe) (f : Filters) (page page_size : Nat)
    (uis : List String) : List (SRecipe × ℚ) :=
  (((recipes.filter (specFilteredB f)).drop ((page - 1) * page_size)).take page_size).map
    fun r => (r, calculate_match_percentage r.recipe_ingredients
      (uis.map normalize_ingredient_name))

/-- The time post-filter is the specification's condition. -/
theorem applyTimeFilter_eq (ctr : Option (List Int)) (l : List SRecipe) :
    applyTimeFilter ctr l = l.filter fun r => decide (specTimeOk ctr r) := by
  rcases ctr with _ | l2
  · simp [applyTimeFilter, specTimeOk]
  · rcases l2 with _ | ⟨a, l3⟩
    · simp [applyTimeFilter, specTimeOk]
    · rcases l3 with _ | ⟨b, l4⟩
      · simp [applyTimeFilter, specTimeOk]
      · rcases l4 with _ | ⟨c, l5⟩
        · unfold applyTimeFilter specTimeOk
          apply List.filter_congr
          intro r _
          rw [Bool.eq_iff_iff]
          simp
        · simp [applyTimeFilter, specTimeOk]

/-- The dietary post-filter is the specification's condition. -/
theorem applyDietFilter_eq (dp : Option (List String)) (l : List SRecipe) :
    applyDietFilter dp l = l.filter fun r => decide (specDietOk dp r) := by
  rcases dp with _ | l2
  · simp [applyDietFilter, specDietOk]
  · rcases l2 with _ | ⟨p, ps⟩
    · simp [applyDietFilter, specDietOk]
    · unfold applyDietFilter specDietOk
      apply List.filter_congr
      intro r _
      rw [Bool.eq_iff_iff]
      simp [List.all_eq_true]

/-- C7: the search pipeline filters the working set by the cooking-time
range and the dietary subset before pagination (the total counts the full
filtered set, and the returned page draws from it in retrieval order),
and the final list is the page sorted by descending match percentage with
ties in original retrieval order. -/
theorem search_recipes_spec (recipes : List SRecipe) (f : Filters)
    (page page_size : Nat) (uis : List String) :
    (∀ e ∈ (search_recipes recipes f page page_size uis).1,
      specTimeOk f.cooking_time_range e.1 ∧ specDietOk f.dietary_preferences e.1) ∧
    (search_recipes recipes f page page_size uis).2
      = (recipes.filter (specFilteredB f)).length ∧
    (search_recipes recipes f page page_size uis).1.Perm
      (specPageList recipes f page page_size uis) ∧
    (search_recipes recipes f page page_size uis).1.Pairwise (fun a b => b.2 ≤ a.2) ∧
    (∀ q : ℚ, (search_recipes recipes f page page_size uis).1.filter
        (fun e => decide (e.2 = q))
      = (specPageList recipes f page page_size uis).filter fun e => decide (e.2 = q)) := by
  have hpipe : search_recipes recipes f page page_size uis
      = (sortByKeyDesc (fun e => e.2) (specPageList recipes f page page_size uis),
         (recipes.filter (specFilteredB f)).length) := by
    unfold search_recipes specPageList specFilteredB
    rw [applyTimeFilter_eq, applyDietFilter_eq, List.filter_filter]
    rw [List.filter_congr (fun r _ => Bool.and_comm
      (decide (specDietOk f.dietary_preferences r))
      (decide (specTimeOk f.cooking_time_range r)))]
  refine ⟨?_, by rw [hpipe], by rw [hpipe]; exact sortByKeyDesc_perm _ _,
    by rw [hpipe]; exact sortByKeyDesc_sorted _ _,
    by intro q; rw [hpipe]; exact sortByKeyDesc_filter _ q _⟩
  intro e he
  rw [hpipe] at he
  have he2 : e ∈ specPageList recipes f page page_size uis :=
    (sortByKeyDesc_perm (fun e => e.2) _).mem_iff.mp he
  unfold specPageList at he2
  rcases List.mem_map.mp he2 with ⟨r, hr, rfl⟩
  have hr2 : r ∈ recipes.filter (specFilteredB f) :=
    List.mem_of_mem_drop (List.mem_of_mem_take hr)
  have := (List.mem_filter.mp hr2).2
  unfold specFilteredB at this
  rw [Bool.and_eq_true, decide_eq_true_eq, decide_eq_true_eq] at this
  exact this

/-- Witness for C7: on a one-recipe working set with empty filters, the
returned entry satisfies both post-filter conditions. -/
theorem search_recipes_spec_witness :
    specTimeOk ({} : Filters).cooking_time_range ⟨30, ["vegan"], [⟨"tomato", false⟩]⟩ ∧
    specDietOk ({} : Filters).dietary_preferences ⟨30, ["vegan"], [⟨"tomato", false⟩]⟩ :=
  (search_recipes_spec [⟨30, ["vegan"], [⟨"tomato", false⟩]⟩] {} 1 20 ["tomato"]).1
    (⟨30, ["vegan"], [⟨"tomato", false⟩]⟩,
      calculate_match_percentage [⟨"tomato", false⟩]
        (["tomato"].map normalize_ingredient_name))
    (by rw [show (search_recipes [⟨30, ["vegan"], [⟨"tomato", false⟩]⟩] {} 1 20 ["tomato"]).1
          = [(⟨30, ["vegan"], [⟨"tomato", false⟩]⟩,
              calculate_match_percentage [⟨"tomato", false⟩]
                (["tomato"].map normalize_ingredient_name))] from rfl]
        exact List.Mem.head _)

end RecipeApp
